import Mathlib

/-!
Verification of the SJAS resume/job matching pipeline.

This development is a shallow embedding, in Lean 4, of the deterministic
core of the SJAS repository: the text normalizer (`core/utils.py`), the
schema validators (`core/schema_validator.py`), the job selector
(`agents/selector_agent.py`), the job extractor
(`agents/extractor_agent.py`), the resume parsing stage
(`agents/parser_agent.py`), the analyzer/writer stage
(`agents/analyzer_writer_agent.py`), the timeout manager
(`core/timeout_manager.py`) and the pipeline orchestrator
(`core/pipeline.py`).

Modelling conventions:
* Python JSON-like values are modelled by the inductive type `Val`
  (None / bool / int / string / list / dict).  Dicts are insertion-ordered
  association lists, as in Python.
* Python code that can raise is modelled in `Except String α`; the string
  carries the (semantically irrelevant) message.  Code whose exceptions a
  caller swallows is matched on the `Except`.
* Delegated collaborators (the LLM text/JSON generation calls, the web page
  fetch, the wall clock, and the NFKD unicode normalization table of the
  standard library) are parameters of the embedding, collected in
  `PipelineEnv`.  The page-content heuristics of the extractor
  (`_strip_html_markdown`, `_extract_job_title`, `_extract_company`,
  `_extract_hard_skills`, `_extract_responsibilities`,
  `_extract_experience_level`) are pure regex text searches whose output
  values no verified claim depends on; they are likewise abstracted as
  string-valued parameters, while the record assembly, list caps and
  validation logic around them (`_parse_job_content`, `extract_job`) are
  embedded faithfully.
* `lower()` is modelled on the ASCII range (A-Z), and whitespace by the
  ASCII whitespace characters matched by Python's default `\s` class.
-/

namespace SJAS

/-! ## Basic character and string helpers (Python semantics) -/

/-- ASCII model of Python `str.lower` on a single character. -/
def pyToLower (c : Char) : Char :=
  if 65 ≤ c.toNat ∧ c.toNat ≤ 90 then Char.ofNat (c.toNat + 32) else c

/-- Whitespace characters of Python's default `\s` class (ASCII part):
space, tab, newline, carriage return, vertical tab, form feed. -/
def isPySpace (c : Char) : Bool :=
  c == ' ' || c == '\t' || c == '\n' || c == '\x0d' || c == '\x0b' || c == '\x0c'

/-- `str.lower` on a whole string (ASCII model). -/
def lowerChars (l : List Char) : List Char := l.map pyToLower

def lowerS (s : String) : String := ⟨lowerChars s.data⟩

/-- `str.strip()` on character lists: drop leading and trailing whitespace. -/
def stripChars (l : List Char) : List Char :=
  ((l.dropWhile (fun c => isPySpace c)).reverse.dropWhile (fun c => isPySpace c)).reverse

def stripS (s : String) : String := ⟨stripChars s.data⟩

/-- `str.rstrip()` on character lists. -/
def rstripChars (l : List Char) : List Char :=
  (l.reverse.dropWhile (fun c => isPySpace c)).reverse

/-- Does `l` start with `p` (list-level `str.startswith`)? -/
def startsWithL : List Char → List Char → Bool
  | _, [] => true
  | [], _ :: _ => false
  | a :: as, b :: bs => a == b && startsWithL as bs

/-- Python `needle in haystack` on strings (substring containment). -/
def containsL (hay need : List Char) : Bool :=
  startsWithL hay need ||
    match hay with
    | [] => false
    | _ :: t => containsL t need

def containsS (hay need : String) : Bool := containsL hay.data need.data

/-- Python `str.count` (non-overlapping substring occurrences), via fuel
bounded by the haystack length. -/
def countSubGo : Nat → List Char → List Char → Nat
  | 0, _, _ => 0
  | _ + 1, [], _ => 0
  | fuel + 1, hay@(_ :: t), need =>
      if startsWithL hay need then 1 + countSubGo fuel (hay.drop need.length) need
      else countSubGo fuel t need

def countSub (hay need : List Char) : Nat :=
  if need.isEmpty then hay.length + 1 else countSubGo (hay.length + 1) hay need

/-- `str.split()` with no argument: split on runs of whitespace, dropping
empty pieces. -/
def splitWsGo : List Char → List Char → List String
  | [], cur => if cur.isEmpty then [] else [⟨cur.reverse⟩]
  | c :: t, cur =>
      if isPySpace c then
        if cur.isEmpty then splitWsGo t [] else ⟨cur.reverse⟩ :: splitWsGo t []
      else splitWsGo t (c :: cur)

def splitWs (s : String) : List String := splitWsGo s.data []

/-- Keep the first occurrence of each element (order-preserving dedup). -/
def dedupKeepFirst : List String → List String
  | [] => []
  | x :: t => x :: (dedupKeepFirst t).filter (fun y => y ≠ x)

/-- Last index of character `c` in `l`, or `-1` when absent
(Python `str.rfind`). -/
def rfindChar (l : List Char) (c : Char) : Int :=
  match l.reverse.findIdx? (fun d => d == c) with
  | none => -1
  | some i => (l.length : Int) - 1 - i

/-! ## The `Val` type: Python JSON-like values -/

/-- A Python JSON-like value: `None`, a bool, an int, a float (modelled as
an exact rational — only the skill-overlap ratio inside the internal
`_debug` map is ever a float), a string, a list or a dict.  Dicts are
insertion-ordered association lists (as CPython dicts). -/
inductive Val where
  | vNull : Val
  | vBool : Bool → Val
  | vInt : Int → Val
  | vRat : ℚ → Val
  | vStr : String → Val
  | vList : List Val → Val
  | vDict : List (String × Val) → Val

open Val

/-- Structural equality on `Val` (Python `==` on JSON-like data). -/
def valBeq : Val → Val → Bool
  | vNull, vNull => true
  | vBool a, vBool b => a == b
  | vInt a, vInt b => a == b
  | vRat a, vRat b => a == b
  | vStr a, vStr b => a == b
  | vList [], vList [] => true
  | vList (x :: xs), vList (y :: ys) => valBeq x y && valBeq (vList xs) (vList ys)
  | vDict [], vDict [] => true
  | vDict ((k, x) :: xs), vDict ((k2, y) :: ys) =>
      k == k2 && valBeq x y && valBeq (vDict xs) (vDict ys)
  | _, _ => false

def isStrV : Val → Bool
  | vStr _ => true
  | _ => false

def isListV : Val → Bool
  | vList _ => true
  | _ => false

def isDictV : Val → Bool
  | vDict _ => true
  | _ => false

/-- Python `isinstance(x, int)`: `bool` is a subclass of `int`. -/
def isIntV : Val → Bool
  | vInt _ => true
  | vBool _ => true
  | _ => false

/-- The keys of a dict value, in insertion order (empty for non-dicts). -/
def keysOf : Val → List String
  | vDict l => l.map (fun p => p.1)
  | _ => []

/-- First binding of key `k` in an association list. -/
def getAssoc : List (String × Val) → String → Option Val
  | [], _ => none
  | (k2, v) :: t, k => if k2 = k then some v else getAssoc t k

def getAssocD (l : List (String × Val)) (k : String) (d : Val) : Val :=
  (getAssoc l k).getD d

/-- Replace the first binding of `k` in place, else append (Python dict
assignment ordering). -/
def setAssoc : List (String × Val) → String → Val → List (String × Val)
  | [], k, v => [(k, v)]
  | (k2, w) :: t, k, v => if k2 = k then (k, v) :: t else (k2, w) :: setAssoc t k v

/-- Does the dict value have key `k`?  (False on non-dicts; every call site
in the embedding is guarded to dicts — see each use.) -/
def hasKeyD (v : Val) (k : String) : Bool :=
  match v with
  | vDict l => l.any (fun p => p.1 == k)
  | _ => false

/-- `d.get(k, default)` on a value known to be a dict (total model; call
sites that may see non-dicts use `pyDictGet` instead). -/
def getD (v : Val) (k : String) (d : Val) : Val :=
  match v with
  | vDict l => getAssocD l k d
  | _ => d

/-- Dict assignment `v[k] = x` on a value known to be a dict (identity on
non-dicts; raising call sites use `pySetItem`). -/
def dictSet (v : Val) (k : String) (x : Val) : Val :=
  match v with
  | vDict l => vDict (setAssoc l k x)
  | w => w

/-- `tgt.update(src)` for dicts: keys of `src`, in order, overwrite in place
or append. -/
def dictUpdate (tgt src : Val) : Val :=
  match tgt, src with
  | vDict l, vDict s => vDict (s.foldl (fun acc p => setAssoc acc p.1 p.2) l)
  | t, _ => t

/-- `parsed.get(k, default)`: raises `AttributeError` on non-dicts. -/
def pyDictGet (v : Val) (k : String) (d : Val) : Except String Val :=
  match v with
  | vDict l => .ok (getAssocD l k d)
  | _ => .error "AttributeError: get"

/-- Python `k in v` for a string key: dict key membership, substring test on
strings, element membership on lists, `TypeError` otherwise. -/
def pyContains (v : Val) (k : String) : Except String Bool :=
  match v with
  | vDict l => .ok (l.any (fun p => p.1 == k))
  | vStr s => .ok (containsS s k)
  | vList xs => .ok (xs.any (fun x => valBeq x (vStr k)))
  | _ => .error "TypeError: argument is not iterable"

/-- Python `v[k]` for a string key: dict item lookup (`KeyError` when
missing), `TypeError` on strings/lists/others. -/
def pyGetItem (v : Val) (k : String) : Except String Val :=
  match v with
  | vDict l =>
      match getAssoc l k with
      | some x => .ok x
      | none => .error "KeyError"
  | _ => .error "TypeError: indices"

/-- Python `v[k] = x` for a string key: dict item assignment, `TypeError`
on non-dicts. -/
def pySetItem (v : Val) (k : String) (x : Val) : Except String Val :=
  match v with
  | vDict l => .ok (vDict (setAssoc l k x))
  | _ => .error "TypeError: item assignment"

/-! ## `core/utils.py` -/

/-- One token of `normalize_skills`: lowercase, strip, drop a trailing
`.js`/`.jsx` (the `re.sub` of a `$`-anchored alternation on a stripped
string), remove whitespace, remove hyphens and underscores. -/
def normalizeToken (s : String) : String :=
  let l := stripChars (lowerChars s.data)
  let l :=
    if l.reverse.take 4 = ".jsx".data.reverse then l.take (l.length - 4)
    else if l.reverse.take 3 = ".js".data.reverse then l.take (l.length - 3)
    else l
  let l := l.filter (fun c => !isPySpace c)
  let l := l.filter (fun c => !(c == '-' || c == '_'))
  ⟨l⟩

/-- The accumulation loop of `normalize_skills`: skip non-strings, skip
tokens that normalize to empty, deduplicate via the `seen` set keeping
first-seen order. -/
def normSkillsGo : List Val → List String → List String
  | [], _ => []
  | v :: rest, seen =>
      match v with
      | Val.vStr s =>
          let t := normalizeToken s
          if t = "" then normSkillsGo rest seen
          else if t ∈ seen then normSkillsGo rest seen
          else t :: normSkillsGo rest (t :: seen)
      | _ => normSkillsGo rest seen

/-- `normalize_skills` (`core/utils.py`): normalize, deduplicate, cap at
10.  (`if not skills: return []` is subsumed by the empty-list case.) -/
def normalize_skills (skills : List Val) : List String :=
  (normSkillsGo skills []).take 10

/-- The bullet-normalization pass of `preprocess_resume_text`:
`re.sub(r'^[\s]*[•\-\*\+]\s+', '- ', text, flags=re.MULTILINE)`.
At each line start, a maximal whitespace run (which may span newlines),
then a bullet character, then at least one whitespace character, are
replaced by a dash and a space.  `atStart` records whether the scanner
stands at a line start (string start or just after a newline). -/
def isBulletChar (c : Char) : Bool :=
  c == '•' || c == '-' || c == '*' || c == '+'

def bulletMatchAt (l : List Char) : Option (List Char × Bool) :=
  let ws := l.takeWhile (fun c => isPySpace c)
  match l.drop ws.length with
  | c :: rest =>
      if isBulletChar c then
        let run := rest.takeWhile (fun d => isPySpace d)
        if run.length ≥ 1 then some (rest.drop run.length, run.getLast? == some '\n')
        else none
      else none
  | [] => none

/-- The scanner itself, with a fuel argument (`l.length + 1` at the top
level suffices: every recursive call strictly shortens the text). -/
def bulletsGo : Nat → List Char → Bool → List Char
  | 0, l, _ => l
  | _ + 1, [], _ => []
  | fuel + 1, c :: t, atStart =>
      if atStart then
        match bulletMatchAt (c :: t) with
        | some (after, nl) => '-' :: ' ' :: bulletsGo fuel after nl
        | none => c :: bulletsGo fuel t (c == '\n')
      else c :: bulletsGo fuel t (c == '\n')

def normalizeBullets (l : List Char) : List Char := bulletsGo (l.length + 1) l true

theorem dropWhile_length_le (p : Char → Bool) (l : List Char) :
    (l.dropWhile p).length ≤ l.length := by
  induction l with
  | nil => simp [List.dropWhile]
  | cons c t ih =>
      simp only [List.dropWhile]
      split
      · exact Nat.le_succ_of_le ih
      · simp

/-- `re.sub(r'[ \t]+', ' ', text)`: collapse space/tab runs to one space. -/
def collapseSpaces : List Char → List Char
  | [] => []
  | c :: t =>
      if c == ' ' || c == '\t' then
        ' ' :: collapseSpaces (t.dropWhile (fun d => d == ' ' || d == '\t'))
      else c :: collapseSpaces t
termination_by l => l.length
decreasing_by
  · simp only [List.length_cons]
    exact Nat.lt_succ_of_le (dropWhile_length_le _ _)
  · simp

/-- `re.sub(r'\n{3,}', '\n\n', text)`: collapse runs of 3+ newlines to 2. -/
def collapseNewlines : List Char → List Char
  | [] => []
  | c :: t =>
      if c == '\n' then
        let run := t.takeWhile (fun d => d == '\n')
        if run.length + 1 ≥ 3 then '\n' :: '\n' :: collapseNewlines (t.drop run.length)
        else c :: collapseNewlines t
      else c :: collapseNewlines t
termination_by l => l.length
decreasing_by
  · simp only [List.length_drop, List.length_cons]
    omega
  · simp
  · simp

/-- The truncation step of `preprocess_resume_text`: cut at 8000, look for
the last space and the last newline of the cut, and when the better of the
two lies after index 7800 cut there and right-strip, else keep the blind
8000-character cut. -/
def truncate8000 (l : List Char) : List Char :=
  if l.length > 8000 then
    let truncated := l.take 8000
    let lastSpace := rfindChar truncated ' '
    let lastNewline := rfindChar truncated '\n'
    let truncateAt := max lastNewline lastSpace
    if truncateAt > 7800 then rstripChars (truncated.take truncateAt.toNat)
    else truncated
  else l

/-- `preprocess_resume_text` on an actual string.  `nfkd` is the unicode
compatibility-decomposition table of the standard library
(`unicodedata.normalize('NFKD', ·)`), a delegated table lookup the
embedding abstracts. -/
def preprocessStr (nfkd : String → String) (text : String) : String :=
  let l := (nfkd text).data
  let l := normalizeBullets l
  let l := collapseSpaces l
  let l := collapseNewlines l
  let l := stripChars l
  ⟨truncate8000 l⟩

/-- `preprocess_resume_text` (`core/utils.py`): non-strings short-circuit
to the empty string via the `isinstance` guard. -/
def preprocess_resume_text (nfkd : String → String) (text : Val) : String :=
  match text with
  | Val.vStr s => preprocessStr nfkd s
  | _ => ""

/-- `count_words` (`core/utils.py`): `len(text.split())`; non-strings
short-circuit to 0 via the `isinstance` guard. -/
def count_words (text : Val) : Nat :=
  match text with
  | Val.vStr s => (splitWs s).length
  | _ => 0

/-- `validate_word_count` (`core/utils.py`). -/
def validate_word_count (text : Val) (minWords maxWords : Nat) : Bool :=
  minWords ≤ count_words text ∧ count_words text ≤ maxWords

/-! ## `core/schema_validator.py`

The validators raise `SchemaValidationError` on failure and return `True`
on success; every call site wraps them in `try/except`, so they are
modelled as `Bool`. -/

def resumeKeys : List String :=
  ["name", "years_of_experience", "current_title", "skills", "education", "work_history"]

def workEntryKeys : List String := ["company", "role", "start", "end", "points"]

def jobKeys : List String :=
  ["job_title", "company", "skills", "responsibilities", "experience_level", "job_url"]

def finalKeys : List String :=
  ["match_score", "score_breakdown", "missing_skills", "strengths", "how_to_improve",
   "optimized_summary", "cover_letter", "recruiter_message", "job_title", "company", "job_url"]

/-- Python set equality of two key lists. -/
def sameKeySet (a b : List String) : Bool :=
  a.all (fun k => b.contains k) && b.all (fun k => a.contains k)

/-- `validate_resume_schema`: exact key set, field types, and every
work-history entry a dict with the exact `WorkEntry` key set and types. -/
def validate_resume_schema (data : Val) : Bool :=
  match data with
  | Val.vDict l =>
      let ks := l.map (fun p => p.1)
      sameKeySet ks resumeKeys &&
      isStrV (getAssocD l "name" Val.vNull) &&
      isIntV (getAssocD l "years_of_experience" Val.vNull) &&
      isStrV (getAssocD l "current_title" Val.vNull) &&
      isListV (getAssocD l "skills" Val.vNull) &&
      isListV (getAssocD l "education" Val.vNull) &&
      (match getAssocD l "work_history" Val.vNull with
       | Val.vList jobs =>
           jobs.all (fun j =>
             match j with
             | Val.vDict jl =>
                 sameKeySet (jl.map (fun p => p.1)) workEntryKeys &&
                 isStrV (getAssocD jl "company" Val.vNull) &&
                 isStrV (getAssocD jl "role" Val.vNull) &&
                 isStrV (getAssocD jl "start" Val.vNull) &&
                 isStrV (getAssocD jl "end" Val.vNull) &&
                 isListV (getAssocD jl "points" Val.vNull)
             | _ => false)
       | _ => false)
  | _ => false

/-- `validate_job_schema`: exact key set and field types. -/
def validate_job_schema (data : Val) : Bool :=
  match data with
  | Val.vDict l =>
      let ks := l.map (fun p => p.1)
      sameKeySet ks jobKeys &&
      isStrV (getAssocD l "job_title" Val.vNull) &&
      isStrV (getAssocD l "company" Val.vNull) &&
      isListV (getAssocD l "skills" Val.vNull) &&
      isListV (getAssocD l "responsibilities" Val.vNull) &&
      isStrV (getAssocD l "experience_level" Val.vNull) &&
      isStrV (getAssocD l "job_url" Val.vNull)
  | _ => false

/-- `validate_final_output_schema`: the eleven required keys must all be
present, `_debug` is the only allowed extra, `match_score` is `None` or an
int, the other fields are typed, and `_debug` must be a dict if present. -/
def validate_final_output_schema (data : Val) : Bool :=
  match data with
  | Val.vDict l =>
      let ks := l.map (fun p => p.1)
      finalKeys.all (fun k => ks.contains k) &&
      ks.all (fun k => finalKeys.contains k || k == "_debug") &&
      (match getAssocD l "match_score" Val.vNull with
       | Val.vNull => true
       | Val.vInt _ => true
       | Val.vBool _ => true
       | _ => false) &&
      isStrV (getAssocD l "score_breakdown" Val.vNull) &&
      isListV (getAssocD l "missing_skills" Val.vNull) &&
      isListV (getAssocD l "strengths" Val.vNull) &&
      isListV (getAssocD l "how_to_improve" Val.vNull) &&
      isStrV (getAssocD l "optimized_summary" Val.vNull) &&
      isStrV (getAssocD l "cover_letter" Val.vNull) &&
      isStrV (getAssocD l "recruiter_message" Val.vNull) &&
      isStrV (getAssocD l "job_title" Val.vNull) &&
      isStrV (getAssocD l "company" Val.vNull) &&
      isStrV (getAssocD l "job_url" Val.vNull) &&
      (!(l.any (fun p => p.1 == "_debug")) || isDictV (getAssocD l "_debug" Val.vNull))
  | _ => false

/-- `strip_debug` (`core/schema_validator.py`): return a copy without the
`_debug` key when present, the value unchanged otherwise. -/
def strip_debug (data : Val) : Val :=
  match data with
  | Val.vDict l =>
      if l.any (fun p => p.1 == "_debug") then
        Val.vDict (l.filter (fun p => p.1 ≠ "_debug"))
      else Val.vDict l
  | v => v

/-! ## `agents/selector_agent.py`

Modelled from the spec: the static job registry (`resources/job_map.json`,
a data file not present in the repository sources) is typed per the spec's
`JobRegistryEntry` — an insertion-ordered association list of category
names to entries of `tags` and `urls` lists of strings; the selector code
itself is embedded from the source, with `entry.get("tags", [])` and
`entry.get("urls", [])` corresponding to the two fields (a missing key
equals an empty list).  The selector claims quantify over all registries
of this shape. -/

structure JobEntry where
  tags : List String
  urls : List String
deriving DecidableEq, Repr

def JobMap := List (String × JobEntry)

def lookupJM : JobMap → String → Option JobEntry
  | [], _ => none
  | (k, e) :: t, q => if k = q then some e else lookupJM t q

/-- `set(query.split())`, as an order-preserving dedup list. -/
def queryWordSet (query : String) : List String :=
  dedupKeepFirst (splitWs query)

/-- The union of the split lowercased tag words of an entry. -/
def tagWordSet (tags : List String) : List String :=
  dedupKeepFirst (tags.flatMap (fun t => splitWs (lowerS t)))

/-- The `semantic_matches` table of `_fuzzy_match_tags`. -/
def semanticMatches : List (String × List String) :=
  [("developer", ["python", "backend"]),
   ("engineer", ["data", "backend"]),
   ("analyst", ["data"]),
   ("programmer", ["python", "backend"])]

/-- The per-category score of `_fuzzy_match_tags`: the number of query
words among the tag words, plus 2 for each semantic trigger word present in
the query whose category list contains this category. -/
def catScore (qws : List String) (category : String) (tags : List String) : Nat :=
  let tw := tagWordSet tags
  let base := qws.countP (fun w => w ∈ tw)
  semanticMatches.foldl
    (fun score p => if p.1 ∈ qws ∧ category ∈ p.2 then score + 2 else score) base

/-- The loop of `_fuzzy_match_tags`, carrying `best_match` and
`best_score`.  A non-`default` category with nonempty tags whose name is a
query word returns immediately. -/
def fuzzyGo (qws : List String) : JobMap → Option String → Nat → Option String
  | [], best, bestScore => if bestScore > 0 then best else none
  | (category, e) :: rest, best, bestScore =>
      if category = "default" then fuzzyGo qws rest best bestScore
      else if e.tags = [] then fuzzyGo qws rest best bestScore
      else if category ∈ qws then some category
      else
        let score := catScore qws category e.tags
        if score > bestScore then fuzzyGo qws rest (some category) score
        else fuzzyGo qws rest best bestScore

/-- `_fuzzy_match_tags(query, job_map)`. -/
def fuzzy_match_tags (query : String) (jm : JobMap) : Option String :=
  fuzzyGo (queryWordSet query) jm none 0

/-- `_get_default_job_urls(job_map)`. -/
def get_default_job_urls (jm : JobMap) : String × String :=
  let urls := ((lookupJM jm "default").map JobEntry.urls).getD []
  match urls with
  | [] => ("", "")
  | [u] => (u, u)
  | u :: v :: _ => (u, v)

/-- The `primary/backup` pair computed from a nonempty `urls` list inside
`select_job` (`urls[0]`, then `urls[1] if len(urls) > 1 else urls[0]`). -/
def urlsPair : List String → String × String
  | [] => ("", "")
  | [u] => (u, u)
  | u :: v :: _ => (u, v)

/-- `select_job(job_query, job_map)`: demo override, exact key match (only
taken when that entry has a nonempty `urls`), fuzzy tag match (likewise),
then the `default` entry. -/
def select_job (jobQuery : String) (jm : JobMap) : String × String :=
  let queryLower := stripS (lowerS jobQuery)
  if startsWithL queryLower.data "demo:".data then get_default_job_urls jm
  else
    let exact :=
      match lookupJM jm queryLower with
      | some e => if e.urls ≠ [] then some (urlsPair e.urls) else none
      | none => none
    match exact with
    | some p => p
    | none =>
        let fuzzy :=
          match fuzzy_match_tags queryLower jm with
          | some c =>
              if c = "" then none  -- `if matched_category:` string truthiness
              else
                match lookupJM jm c with
                | some e => if e.urls ≠ [] then some (urlsPair e.urls) else none
                | none => none
          | none => none
        match fuzzy with
        | some p => p
        | none => get_default_job_urls jm

/-! ## The environment of delegated collaborators

One pipeline run is parameterized by the behavior of everything the core
delegates: the wall clock, the structured-extraction LLM call of the
parser, the registry file load, the page fetch, the page-content text
heuristics of the extractor, and the text/integer LLM calls of the
analyzer/writer.  A failing `Except` models a raised exception (including
the `NotImplementedError` raised when the delegate SDK is unavailable). -/

structure PipelineEnv where
  /-- Result of `check_timeout_elapsed` at the k-th stage boundary
  (k = 0 before PARSE, 1 before SELECT, 2 before EXTRACT, 3 before
  ANALYZE). -/
  timeoutAt : Nat → Bool
  /-- `int((time.time() - start_time) * 1000)` on normal completion. -/
  elapsedMs : Int
  /-- `unicodedata.normalize('NFKD', ·)`. -/
  nfkd : String → String
  /-- `llm_call_json(prompt)` at the given parse attempt (0 = first try,
  1 = retry): the parsed JSON record, or a raised error. -/
  parseJson : Nat → String → Except String Val
  /-- `_load_job_map()`: the registry from `resources/job_map.json`, or a
  raised error. -/
  jobMap : Except String JobMap
  /-- `adk_load_web_page(url)` (with `_extract_from_url`'s availability
  guard folded into the failure case). -/
  fetch : String → Except String String
  /-- `_strip_html_markdown(page_content)`. -/
  stripHtml : String → String
  /-- `_extract_job_title(text)`. -/
  exJobTitle : String → String
  /-- `_extract_company(text, url)`. -/
  exCompany : String → String → String
  /-- `_extract_hard_skills(text)` (the leaf already caps at 10). -/
  exSkills : String → List String
  /-- `_extract_responsibilities(text)` (the leaf already caps at 6). -/
  exResps : String → List String
  /-- `_extract_experience_level(text)`. -/
  exExpLevel : String → String
  /-- `llm_call(prompt)` for the experience-score prompt. -/
  expResp : String → Except String String
  /-- `llm_call(prompt)` for the summary prompt. -/
  summaryResp : String → Except String String
  /-- `llm_call(prompt)` for the cover-letter prompt. -/
  coverResp : String → Except String String
  /-- `llm_call(prompt)` for the recruiter-message prompt. -/
  recruiterResp : String → Except String String

/-! ## `agents/extractor_agent.py` -/

def allowedDomains : List String := ["lever.co", "greenhouse.io", "ashbyhq.com", "workable.com"]

def defaultJobUrl : String := "https://jobs.lever.co/nava/7a315e81-41eb-40cc-bb0e-b065b7f88712"

/-- The `netloc` of `urllib.parse.urlparse`, modelled for URLs of the
shape `scheme://host/path...`: the text between the first `//` and the
next `/`, `?` or `#` (empty when the URL has no `//`). -/
def netlocChars : List Char → List Char
  | [] => []
  | l@(_ :: t) =>
      if startsWithL l "//".data then
        (l.drop 2).takeWhile (fun c => !(c == '/' || c == '?' || c == '#'))
      else netlocChars t

def netlocOf (url : String) : String := ⟨netlocChars url.data⟩

/-- `_is_allowed_domain(url)`: the lowercased netloc must contain one of
the four allowed domain suffixes as a substring. -/
def is_allowed_domain (url : String) : Bool :=
  let domain := lowerS (netlocOf url)
  allowedDomains.any (fun allowed => containsS domain allowed)

/-- `_parse_job_content(page_content, job_url)`: strip markup, run the
field heuristics, assemble the job record (skills capped to 10,
responsibilities to 6), and validate — substituting the minimal structure
(with `or`-defaults for title and company) if validation fails. -/
def parse_job_content (env : PipelineEnv) (pageContent url : String) : Val :=
  let text := env.stripHtml pageContent
  let jobTitle := env.exJobTitle text
  let company := env.exCompany text url
  let skills := env.exSkills text
  let resps := env.exResps text
  let lvl := env.exExpLevel text
  let result := Val.vDict
    [("job_title", Val.vStr jobTitle),
     ("company", Val.vStr company),
     ("skills", Val.vList ((skills.take 10).map Val.vStr)),
     ("responsibilities", Val.vList ((resps.take 6).map Val.vStr)),
     ("experience_level", Val.vStr lvl),
     ("job_url", Val.vStr url)]
  if validate_job_schema result then result
  else Val.vDict
    [("job_title", Val.vStr (if jobTitle = "" then "Software Engineer" else jobTitle)),
     ("company", Val.vStr (if company = "" then "Company" else company)),
     ("skills", Val.vList []),
     ("responsibilities", Val.vList []),
     ("experience_level", Val.vStr ""),
     ("job_url", Val.vStr url)]

/-- `_extract_from_url(url)`: fetch the page (raising when the delegate
raises or is unavailable) and parse it. -/
def extract_from_url (env : PipelineEnv) (url : String) : Except String Val :=
  match env.fetch url with
  | .error e => .error e
  | .ok pageContent => .ok (parse_job_content env pageContent url)

/-- The backup-then-default part of `extract_job`: try the backup URL when
truthy and allow-listed, swallowing any raise; then return
`_extract_from_url(DEFAULT_JOB_URL)` with no exception handler.  `tr` is
the trace accumulated so far. -/
def extract_job_tail (env : PipelineEnv) :
    Option String → List String → Except String Val × List String
  | some b, tr =>
      if b ≠ "" && is_allowed_domain b then
        match extract_from_url env b with
        | .ok r => (.ok r, tr ++ [b])
        | .error _ => (extract_from_url env defaultJobUrl, tr ++ [b, defaultJobUrl])
      else (extract_from_url env defaultJobUrl, tr ++ [defaultJobUrl])
  | none, tr => (extract_from_url env defaultJobUrl, tr ++ [defaultJobUrl])

/-- `extract_job(job_url, backup_url)`: try the primary URL when truthy and
allow-listed, swallowing any raise; then the backup and default chain of
`extract_job_tail`.  The second component is the instrumentation trace:
the URLs passed to `_extract_from_url`, in order. -/
def extract_job (env : PipelineEnv) (jobUrl : String) (backupUrl : Option String) :
    Except String Val × List String :=
  if jobUrl ≠ "" && is_allowed_domain jobUrl then
    match extract_from_url env jobUrl with
    | .ok r => (.ok r, [jobUrl])
    | .error _ => extract_job_tail env backupUrl [jobUrl]
  else extract_job_tail env backupUrl []

/-! ## `core/adk_integration.py`: `llm_call_integer` -/

/-- The first maximal digit run of a string (`re.search(r'\d+', ·)`). -/
def firstDigitRun : List Char → Option (List Char)
  | [] => none
  | c :: t => if c.isDigit then some (c :: t.takeWhile Char.isDigit) else firstDigitRun t

def digitsToNat (l : List Char) : Nat :=
  l.foldl (fun acc c => acc * 10 + (c.toNat - 48)) 0

/-- `llm_call_integer(prompt, 0, 10)` applied to a delegate response:
`ValueError` when the response has no digit, else the first integer
clamped into `[0, 10]`. -/
def llmCallInteger (resp : Except String String) : Except String Int :=
  match resp with
  | .error e => .error e
  | .ok s =>
      match firstDigitRun s.data with
      | none => .error "ValueError: no integer in response"
      | some ds => .ok (max 0 (min 10 (Int.ofNat (digitsToNat ds))))

/-! ## `agents/parser_agent.py` -/

/-- `_get_error_json(error_message)`: the parse-failure record.  Note the
key set: the `FinalRecord` keys except `score_breakdown`, plus `error`. -/
def get_error_json (errorMessage : String) : Val :=
  Val.vDict
    [("error", Val.vStr (stripS
        ("Resume parsing failed — please paste plain text only (no PDF formatting, tables, headers/footers). "
          ++ errorMessage))),
     ("match_score", Val.vNull),
     ("missing_skills", Val.vList []),
     ("strengths", Val.vList []),
     ("how_to_improve", Val.vList []),
     ("optimized_summary", Val.vStr ""),
     ("cover_letter", Val.vStr ""),
     ("recruiter_message", Val.vStr ""),
     ("job_title", Val.vStr ""),
     ("company", Val.vStr ""),
     ("job_url", Val.vStr "")]

/-- The key list of `_get_error_json`'s record. -/
def parseErrorKeys : List String :=
  ["error", "match_score", "missing_skills", "strengths", "how_to_improve",
   "optimized_summary", "cover_letter", "recruiter_message", "job_title", "company", "job_url"]

/-- The prompt template of `_call_llm_parse_resume`. -/
def parsePromptOf (resumeText : String) : String :=
  "Parse the following resume text into a JSON object with this exact structure:\n"
    ++ "\x7b\n"
    ++ "  \"name\": \"Full name\",\n"
    ++ "  \"years_of_experience\": <integer>,\n"
    ++ "  \"current_title\": \"Current job title\",\n"
    ++ "  \"skills\": [\"skill1\", \"skill2\", ...],\n"
    ++ "  \"education\": [\"education1\", \"education2\", ...],\n"
    ++ "  \"work_history\": [\n"
    ++ "    \x7b\n"
    ++ "      \"company\": \"Company name\",\n"
    ++ "      \"role\": \"Job title\",\n"
    ++ "      \"start\": \"Start date\",\n"
    ++ "      \"end\": \"End date or Present\",\n"
    ++ "      \"points\": [\"achievement1\", \"achievement2\", ...]\n"
    ++ "    \x7d\n"
    ++ "  ]\n"
    ++ "\x7d\n\n"
    ++ "Resume text:\n" ++ resumeText ++ "\n\n"
    ++ "Return only valid JSON, no additional text."

/-- The skills-normalization step of `parse_resume`:
`if "skills" in parsed_data and isinstance(parsed_data["skills"], list)`,
then assign the normalized list.  Python membership/indexing semantics on
non-dict values (including the raising cases) are mirrored by
`pyContains`/`pyGetItem`/`pySetItem`. -/
def massageSkills (p : Val) : Except String Val := do
  let b ← pyContains p "skills"
  if b then
    let sv ← pyGetItem p "skills"
    match sv with
    | Val.vList xs => pySetItem p "skills" (Val.vList ((normalize_skills xs).map Val.vStr))
    | _ => pure p
  else pure p

/-- The per-entry work-history truncation:
`if "points" in job and isinstance(job["points"], list): job["points"] = job["points"][:4]`. -/
def truncPoints (j : Val) : Except String Val := do
  let b ← pyContains j "points"
  if b then
    let pv ← pyGetItem j "points"
    match pv with
    | Val.vList xs => pySetItem j "points" (Val.vList (xs.take 4))
    | _ => pure j
  else pure j

/-- The work-history step of `parse_resume`. -/
def massageWork (p : Val) : Except String Val := do
  let b ← pyContains p "work_history"
  if b then
    let wv ← pyGetItem p "work_history"
    match wv with
    | Val.vList js => do
        let js2 ← js.mapM truncPoints
        pySetItem p "work_history" (Val.vList js2)
    | _ => pure p
  else pure p

/-- The defaults-filling step of `parse_resume`: rebuild the record from
`parsed_data.get(...)` with type-appropriate defaults (raising
`AttributeError` when the parsed data is not a dict, as `.get` does). -/
def buildResumeRecord (p : Val) : Except String Val :=
  match p with
  | Val.vDict l =>
      .ok (Val.vDict
        [("name", getAssocD l "name" (Val.vStr "")),
         ("years_of_experience", getAssocD l "years_of_experience" (Val.vInt 0)),
         ("current_title", getAssocD l "current_title" (Val.vStr "")),
         ("skills", getAssocD l "skills" (Val.vList [])),
         ("education", getAssocD l "education" (Val.vList [])),
         ("work_history", getAssocD l "work_history" (Val.vList []))])
  | _ => .error "AttributeError: get"

/-- The post-LLM normalization of `parse_resume` (everything between the
delegate call and the schema validation). -/
def normalizeParsed (p : Val) : Except String Val := do
  let p1 ← massageSkills p
  let p2 ← massageWork p1
  buildResumeRecord p2

/-- `parse_resume(resume_text, retry_count)`.  The second component counts
the delegate invocations (`_call_llm_parse_resume` calls).  A delegate
raise or a schema-validation failure at `retry_count = 0` re-runs the whole
stage once; at `retry_count = 1` it produces the `_get_error_json` record.
Exceptions raised by the normalization itself propagate (first component
`.error`). -/
def parseResumeRec (env : PipelineEnv) (text : String) :
    Nat → Nat → (Except String Val) × Nat
  | 0, _ => (.error "unreachable", 0)
  | fuel + 1, retry =>
      let processed := preprocessStr env.nfkd text
      let prompt := parsePromptOf processed
      match env.parseJson retry prompt with
      | .error e =>
          if retry < 1 then
            let r := parseResumeRec env text fuel (retry + 1)
            (r.1, r.2 + 1)
          else (.ok (get_error_json e), 1)
      | .ok parsedData =>
          match normalizeParsed parsedData with
          | .error e => (.error e, 1)
          | .ok result =>
              if validate_resume_schema result then (.ok result, 1)
              else if retry < 1 then
                let r := parseResumeRec env text fuel (retry + 1)
                (r.1, r.2 + 1)
              else (.ok (get_error_json ("Schema validation failed: invalid resume schema")), 1)

/-- `parse_resume(resume_text)` as the pipeline calls it.  The fuel 2
bounds the recursion depth structurally; since `retry_count` only takes
the values 0 and 1, the fuel-exhausted arm is unreachable. -/
def parse_resume (env : PipelineEnv) (text : String) : (Except String Val) × Nat :=
  parseResumeRec env text 2 0

/-! ## Python value semantics used by the analyzer/writer -/

mutual

/-- Python `str(x)` for a `Val` (`repr` for nested containers; floats are
shown as exact rationals — the rendering feeds only prompt text no claim
depends on). -/
def pyStr : Val → String
  | Val.vNull => "None"
  | Val.vBool b => if b then "True" else "False"
  | Val.vInt n => toString n
  | Val.vRat q => toString q
  | Val.vStr s => s
  | Val.vList xs => "[" ++ valReprItems xs ++ "]"
  | Val.vDict l => "\x7b" ++ valReprPairs l ++ "\x7d"

def valRepr : Val → String
  | Val.vStr s => "\x27" ++ s ++ "\x27"
  | v => pyStrAux v

def pyStrAux : Val → String
  | Val.vNull => "None"
  | Val.vBool b => if b then "True" else "False"
  | Val.vInt n => toString n
  | Val.vRat q => toString q
  | Val.vStr s => s
  | Val.vList xs => "[" ++ valReprItems xs ++ "]"
  | Val.vDict l => "\x7b" ++ valReprPairs l ++ "\x7d"

def valReprItems : List Val → String
  | [] => ""
  | [x] => valRepr x
  | x :: t => valRepr x ++ ", " ++ valReprItems t

def valReprPairs : List (String × Val) → String
  | [] => ""
  | [(k, v)] => "\x27" ++ k ++ "\x27: " ++ valRepr v
  | (k, v) :: t => "\x27" ++ k ++ "\x27: " ++ valRepr v ++ ", " ++ valReprPairs t

end

/-- Python iteration over a value: lists yield elements, strings yield
1-character strings, dicts yield their keys; other values raise. -/
def pyIterElems : Val → Except String (List Val)
  | Val.vList xs => .ok xs
  | Val.vStr s => .ok (s.data.map (fun c => Val.vStr ⟨[c]⟩))
  | Val.vDict l => .ok (l.map (fun p => Val.vStr p.1))
  | _ => .error "TypeError: not iterable"

/-- `sep.join(v)`: iterate and require every element to be a string. -/
def pyJoin (sep : String) (v : Val) : Except String String := do
  let elems ← pyIterElems v
  let strs ← elems.mapM (fun e =>
    match e with
    | Val.vStr s => Except.ok s
    | _ => Except.error "TypeError: sequence item is not str")
  pure (String.intercalate sep strs)

/-- `v[:n]` on lists and strings; `TypeError` otherwise. -/
def pySlice (v : Val) (n : Nat) : Except String Val :=
  match v with
  | Val.vList xs => .ok (Val.vList (xs.take n))
  | Val.vStr s => .ok (Val.vStr ⟨s.data.take n⟩)
  | _ => .error "TypeError: not subscriptable"

/-- Python `v >= n` against an int literal: ints and bools compare,
everything else raises. -/
def pyGeInt (v : Val) (n : Int) : Except String Bool :=
  match v with
  | Val.vInt m => .ok (n ≤ m)
  | Val.vBool b => .ok (n ≤ (if b then (1 : Int) else 0))
  | _ => .error "TypeError: order comparison"

/-- `normalize_skills` applied to an arbitrary Python value, as the
analyzer does via `.get(...)`: falsy values give `[]`, lists/strings/dicts
are iterated, other truthy values raise. -/
def normalizeSkillsPy : Val → Except String (List String)
  | Val.vList xs => .ok (normalize_skills xs)
  | Val.vStr s =>
      if s = "" then .ok [] else .ok (normalize_skills (s.data.map (fun c => Val.vStr ⟨[c]⟩)))
  | Val.vNull => .ok []
  | Val.vBool b => if b then .error "TypeError: not iterable" else .ok []
  | Val.vInt n => if n = 0 then .ok [] else .error "TypeError: not iterable"
  | Val.vRat q => if q = 0 then .ok [] else .error "TypeError: not iterable"
  | Val.vDict l => .ok (normalize_skills (l.map (fun p => Val.vStr p.1)))

/-! ## `agents/analyzer_writer_agent.py` -/

/-- Python `round()` on an exact rational: round half to even. -/
def pyRound (q : ℚ) : ℤ :=
  let f := q.floor
  let r := q - (f : ℚ)
  if r < 1 / 2 then f
  else if 1 / 2 < r then f + 1
  else if f % 2 = 0 then f else f + 1

/-- Python `int()` truncation of a rational toward zero. -/
def ratTruncInt (q : ℚ) : ℤ := q.num.tdiv (q.den : ℤ)

/-- `_calculate_skill_overlap(resume_json, job_json)`. -/
def calculate_skill_overlap (resume job : Val) : Except String ℚ := do
  let rsv ← pyDictGet resume "skills" (Val.vList [])
  let resumeSkills ← normalizeSkillsPy rsv
  let jsv ← pyDictGet job "skills" (Val.vList [])
  let jobSkills ← normalizeSkillsPy jsv
  if jobSkills = [] then pure 0
  else pure ((jobSkills.countP (fun s => s ∈ resumeSkills) : ℚ) / (jobSkills.length : ℚ))

def expPromptOf (responsibilities candidateExperience : String) : String :=
  "On a scale from 0 to 10, where 0 means no relevant experience and 10 means perfect match, "
    ++ "how well does the candidate\x27s experience match the job responsibilities below? "
    ++ "Answer with a single number only, no explanation.\n\n"
    ++ "Responsibilities: " ++ responsibilities ++ "\n\n"
    ++ "Candidate experience: " ++ candidateExperience

/-- `_get_experience_score(resume_json, job_json)`: build the prompt from
the joined responsibilities and work-history points and extract an integer
in `[0, 10]` from the delegate response. -/
def get_experience_score (env : PipelineEnv) (resume job : Val) : Except String Int := do
  let rv ← pyDictGet job "responsibilities" (Val.vList [])
  let responsibilities ← pyJoin "\n" rv
  let wh ← pyDictGet resume "work_history" (Val.vList [])
  let entries ← pyIterElems wh
  let expPoints ← entries.foldlM (fun acc j => do
      let pv ← pyDictGet j "points" (Val.vList [])
      let elems ← pyIterElems pv
      pure (acc ++ elems)) ([] : List Val)
  let candidateExperience ← pyJoin "\n" (Val.vList expPoints)
  llmCallInteger (env.expResp (expPromptOf responsibilities candidateExperience))

def eduKeywords : List String := ["bachelor", "master", "b.s.", "m.s.", "bs", "ms", "ba", "ma"]

/-- `_check_education_match(resume_json)`. -/
def check_education_match (resume : Val) : Except String Bool := do
  let ev ← pyDictGet resume "education" (Val.vList [])
  let txt ← pyJoin " " ev
  let low := lowerS txt
  pure (eduKeywords.any (fun k => containsS low k))

/-- `_calculate_final_score(skill_overlap_ratio, experience_score,
edu_match)`: `round(40*so + 40*(es/10) + 20*(1.0 or 0.6))` clamped to
`[0, 100]`. -/
def calculate_final_score (skillOverlapRatio : ℚ) (experienceScore : Int) (eduMatch : Bool) : Int :=
  let skillComponent := 40 * skillOverlapRatio
  let experienceComponent := 40 * ((experienceScore : ℚ) / 10)
  let educationComponent := 20 * (if eduMatch then (1 : ℚ) else 0.6)
  let finalScore := pyRound (skillComponent + experienceComponent + educationComponent)
  max 0 (min 100 finalScore)

def requiredTriggers : List String := ["required", "must have", "experience with", "need"]

/-- The `.*?` span of the missing-skill regex: from the current position,
the skill may match after any run of non-newline characters. -/
def noNlThen : List Char → List Char → Bool
  | rest, skill =>
      startsWithL rest skill ||
        match rest with
        | [] => false
        | c :: t => if c == '\n' then false else noNlThen t skill

/-- `re.search(r'(?:required|must have|experience with|need).*?<skill>',
text)`: somewhere in the text a trigger phrase occurs, followed by the
skill with no intervening newline. -/
def regexRequiredSearch (text skill : List Char) : Bool :=
  text.tails.any (fun suff =>
    requiredTriggers.any (fun trg =>
      startsWithL suff trg.data && noNlThen (suff.drop trg.data.length) skill))

/-- `_identify_missing_skills(resume_json, job_json)`.  The Python loop
iterates the `set` of job skills; the iteration order is modelled as the
first-seen order of the normalized list. -/
def identify_missing_skills (resume job : Val) : Except String (List String) := do
  let rsv ← pyDictGet resume "skills" (Val.vList [])
  let resumeSkills ← normalizeSkillsPy rsv
  let jsv ← pyDictGet job "skills" (Val.vList [])
  let jobSkillsText0 ← pyJoin " " jsv
  let jobSkillsText := lowerS jobSkillsText0
  let rv ← pyDictGet job "responsibilities" (Val.vList [])
  let jobResps0 ← pyJoin " " rv
  let jobResps := lowerS jobResps0
  let fullJobText := lowerS (jobSkillsText ++ " " ++ jobResps)
  let jobSkills ← normalizeSkillsPy jsv
  pure (jobSkills.filter (fun skill =>
    !(resumeSkills.contains skill) &&
      (2 ≤ countSub fullJobText.data (lowerS skill).data ||
        regexRequiredSearch fullJobText.data skill.data)))

/-- `_generate_strengths(resume_json, job_json, skill_overlap)`. -/
def generate_strengths (resume job : Val) (skillOverlap : ℚ) : Except String (List String) := do
  let skillPart : List String :=
    if skillOverlap ≥ 0.7 then ["Strong technical skill alignment with job requirements"]
    else if skillOverlap ≥ 0.4 then ["Good technical skill foundation"]
    else []
  let yearsExp ← pyDictGet resume "years_of_experience" (Val.vInt 0)
  let ge5 ← pyGeInt yearsExp 5
  let ge2 ← pyGeInt yearsExp 2
  let expPart : List String :=
    if ge5 then ["Extensive professional experience"]
    else if ge2 then ["Relevant work experience"]
    else []
  let edu ← check_education_match resume
  let eduPart : List String := if edu then ["Relevant educational background"] else []
  let strengths := skillPart ++ expPart ++ eduPart
  pure (if strengths = [] then ["Strong foundation for growth"] else strengths)

/-- `_generate_how_to_improve(missing_skills, skill_overlap)`. -/
def generate_how_to_improve (missingSkills : List String) (skillOverlap : ℚ) : List String :=
  let s1 : List String :=
    if missingSkills ≠ [] then
      ["Consider learning or highlighting: " ++ String.intercalate ", " (missingSkills.take 3)]
    else []
  let s2 : List String :=
    if skillOverlap < 0.5 then ["Focus on developing skills mentioned in the job description"]
    else []
  let suggestions := s1 ++ s2
  if suggestions = [] then ["Continue building relevant experience"] else suggestions

/-- `_generate_summary(resume_json, job_json, score)`. -/
def generate_summary (env : PipelineEnv) (resume job : Val) (score : Int) :
    Except String String := do
  let name ← pyDictGet resume "name" (Val.vStr "Candidate")
  let yearsExp ← pyDictGet resume "years_of_experience" (Val.vInt 0)
  let currentTitle ← pyDictGet resume "current_title" (Val.vStr "")
  let jobTitle ← pyDictGet job "job_title" (Val.vStr "this position")
  let company ← pyDictGet job "company" (Val.vStr "the company")
  let prompt :=
    "Write a 2-3 sentence professional summary for a job application. "
      ++ "Candidate: " ++ pyStr name ++ ", " ++ pyStr yearsExp ++ " years of experience as "
      ++ pyStr currentTitle ++ ". "
      ++ "Applying for: " ++ pyStr jobTitle ++ " at " ++ pyStr company ++ ". "
      ++ "Match score: " ++ toString score ++ "%. "
      ++ "Keep it concise, professional, and exactly 2-3 sentences. "
      ++ "Highlight relevant experience and alignment with the role."
  env.summaryResp prompt

/-- `_validate_cover_letter_word_count(cover_letter)`: over 340 words,
truncate to the first 320 and close with terminal punctuation. -/
def validate_cover_letter_word_count (coverLetter : String) : String :=
  let wordCount := (splitWs coverLetter).length
  if wordCount > 340 then
    let truncated := String.intercalate " " ((splitWs coverLetter).take 320)
    if (rstripChars truncated.data).getLast? |>.elim false (fun c => c == '.' || c == '!' || c == '?') then
      truncated
    else truncated ++ "."
  else coverLetter

/-- `_generate_cover_letter(resume_json, job_json, score)` (the generator
itself already applies the word-count validation once). -/
def generate_cover_letter (env : PipelineEnv) (resume job : Val) (score : Int) :
    Except String String := do
  let name ← pyDictGet resume "name" (Val.vStr "Candidate")
  let yearsExp ← pyDictGet resume "years_of_experience" (Val.vInt 0)
  let currentTitle ← pyDictGet resume "current_title" (Val.vStr "")
  let skillsV ← pyDictGet resume "skills" (Val.vList [])
  let sliced ← pySlice skillsV 5
  let skills ← pyJoin ", " sliced
  let jobTitle ← pyDictGet job "job_title" (Val.vStr "this position")
  let company ← pyDictGet job "company" (Val.vStr "the company")
  let respV ← pyDictGet job "responsibilities" (Val.vList [])
  let rsliced ← pySlice respV 3
  let responsibilities ← pyJoin "\n" rsliced
  let prompt :=
    "Write a professional cover letter (280-320 words, never exceed 340 words) for a job application. "
      ++ "Candidate: " ++ pyStr name ++ ", " ++ pyStr yearsExp ++ " years of experience as "
      ++ pyStr currentTitle ++ ". "
      ++ "Key skills: " ++ skills ++ ". "
      ++ "Applying for: " ++ pyStr jobTitle ++ " at " ++ pyStr company ++ ". "
      ++ "Job responsibilities include: " ++ responsibilities ++ ". "
      ++ "Match score: " ++ toString score ++ "%. "
      ++ "Requirements: "
      ++ "- Exactly 280-320 words (strictly enforce, never exceed 340 words). "
      ++ "- Professional tone. "
      ++ "- Highlight relevant experience and skills. "
      ++ "- Last sentence must be a clear call to action (CTA). "
      ++ "- Do not include markdown formatting or HTML tags."
  let coverLetter ← env.coverResp prompt
  pure (validate_cover_letter_word_count coverLetter)

/-- `_generate_recruiter_message(resume_json, job_json, score)`. -/
def generate_recruiter_message (env : PipelineEnv) (resume job : Val) (score : Int) :
    Except String String := do
  let name ← pyDictGet resume "name" (Val.vStr "Candidate")
  let currentTitle ← pyDictGet resume "current_title" (Val.vStr "")
  let jobTitle ← pyDictGet job "job_title" (Val.vStr "this position")
  let company ← pyDictGet job "company" (Val.vStr "the company")
  let prompt :=
    "Write a brief, professional recruiter message (exactly 1-2 sentences) for a LinkedIn message or email. "
      ++ "Candidate: " ++ pyStr name ++ ", currently " ++ pyStr currentTitle ++ ". "
      ++ "Interested in: " ++ pyStr jobTitle ++ " at " ++ pyStr company ++ ". "
      ++ "Keep it concise, professional, and engaging. "
      ++ "Maximum 2 sentences."
  env.recruiterResp prompt

/-- `re.split(r'[.!?]+', message)`, keeping the raw pieces. -/
def splitPunctGo : List Char → List Char → List String
  | [], cur => [⟨cur.reverse⟩]
  | c :: t, cur =>
      if c == '.' || c == '!' || c == '?' then
        (⟨cur.reverse⟩ : String) ::
          splitPunctGo (t.dropWhile (fun d => d == '.' || d == '!' || d == '?')) []
      else splitPunctGo t (c :: cur)
termination_by l _ => l.length
decreasing_by
  · simp only [List.length_cons]
    exact Nat.lt_succ_of_le (dropWhile_length_le _ _)
  · simp

/-- The stripped nonempty sentences of a message. -/
def sentencesOf (s : String) : List String :=
  ((splitPunctGo s.data []).map stripS).filter (fun x => x ≠ "")

/-- `_validate_recruiter_message(message)`: cap at 2 sentences. -/
def validate_recruiter_message (message : String) : String :=
  let sentences := sentencesOf message
  if sentences.length > 2 then String.intercalate ". " (sentences.take 2) ++ "."
  else message

/-- `_validate_summary(summary)`: cap at 3 sentences. -/
def validate_summary (summary : String) : String :=
  let sentences := sentencesOf summary
  if sentences.length > 3 then String.intercalate ". " (sentences.take 3) ++ "."
  else summary

/-- `_generate_score_breakdown(skill_overlap, experience_score, edu_match)`. -/
def generate_score_breakdown (skillOverlap : ℚ) (experienceScore : Int) (eduMatch : Bool) :
    String :=
  let skillPct := ratTruncInt (skillOverlap * 100)
  let eduStatus := if eduMatch then "Match" else "Partial"
  "Skills " ++ toString skillPct ++ "% · Experience " ++ toString experienceScore
    ++ "/10 · Education " ++ eduStatus

/-- The intermediates of one `analyze_and_write` run, in source order. -/
structure AnalyzeParts where
  finalScore : Int
  breakdown : String
  missing : List String
  strengths : List String
  improve : List String
  summary : String
  cover : String
  recruiter : String
  jobTitle : Val
  company : Val
  jobUrl : Val
  dbg : List (String × Val)

/-- The raising part of `analyze_and_write`: every delegated call and every
Python operation that can raise, in source order. -/
def analyzeParts (env : PipelineEnv) (resume job : Val) : Except String AnalyzeParts := do
  let skillOverlap ← calculate_skill_overlap resume job
  let experienceScore ← get_experience_score env resume job
  let eduMatch ← check_education_match resume
  let finalScore := calculate_final_score skillOverlap experienceScore eduMatch
  let missingSkills ← identify_missing_skills resume job
  let strengths ← generate_strengths resume job skillOverlap
  let howToImprove := generate_how_to_improve missingSkills skillOverlap
  let optimizedSummary ← generate_summary env resume job finalScore
  let coverLetter ← generate_cover_letter env resume job finalScore
  let recruiterMessage ← generate_recruiter_message env resume job finalScore
  let coverLetter := validate_cover_letter_word_count coverLetter
  let recruiterMessage := validate_recruiter_message recruiterMessage
  let optimizedSummary := validate_summary optimizedSummary
  let jt ← pyDictGet job "job_title" (Val.vStr "")
  let comp ← pyDictGet job "company" (Val.vStr "")
  let ju ← pyDictGet job "job_url" (Val.vStr "")
  pure
    { finalScore := finalScore
      breakdown := generate_score_breakdown skillOverlap experienceScore eduMatch
      missing := missingSkills
      strengths := strengths
      improve := howToImprove
      summary := optimizedSummary
      cover := coverLetter
      recruiter := recruiterMessage
      jobTitle := jt
      company := comp
      jobUrl := ju
      dbg := [("skill_overlap_ratio", Val.vRat skillOverlap),
              ("experience_score", Val.vInt experienceScore),
              ("edu_match", Val.vBool eduMatch)] }

/-- The result assembly of `analyze_and_write`: build the full record,
validate, and fall back to the minimal structure on validation failure. -/
def assembleFinal (p : AnalyzeParts) : Val :=
  let result := Val.vDict
    [("match_score", Val.vInt p.finalScore),
     ("score_breakdown", Val.vStr p.breakdown),
     ("missing_skills", Val.vList (p.missing.map Val.vStr)),
     ("strengths", Val.vList (p.strengths.map Val.vStr)),
     ("how_to_improve", Val.vList (p.improve.map Val.vStr)),
     ("optimized_summary", Val.vStr p.summary),
     ("cover_letter", Val.vStr p.cover),
     ("recruiter_message", Val.vStr p.recruiter),
     ("job_title", p.jobTitle),
     ("company", p.company),
     ("job_url", p.jobUrl),
     ("_debug", Val.vDict p.dbg)]
  if validate_final_output_schema result then result
  else Val.vDict
    [("match_score", Val.vInt p.finalScore),
     ("score_breakdown", Val.vStr ""),
     ("missing_skills", Val.vList []),
     ("strengths", Val.vList []),
     ("how_to_improve", Val.vList []),
     ("optimized_summary", Val.vStr ""),
     ("cover_letter", Val.vStr ""),
     ("recruiter_message", Val.vStr ""),
     ("job_title", p.jobTitle),
     ("company", p.company),
     ("job_url", p.jobUrl),
     ("_debug", Val.vDict [])]

/-- `analyze_and_write(resume_json, job_json)`. -/
def analyze_and_write (env : PipelineEnv) (resume job : Val) : Except String Val :=
  (analyzeParts env resume job).map assembleFinal

/-! ## `core/timeout_manager.py` and `core/pipeline.py` -/

/-- `get_fallback_json()`: the canned fallback record (`match_score = 82`),
with its own `_debug` marker. -/
def get_fallback_json : Val :=
  Val.vDict
    [("match_score", Val.vInt 82),
     ("score_breakdown", Val.vStr "Fallback mode activated"),
     ("missing_skills", Val.vList []),
     ("strengths", Val.vList []),
     ("how_to_improve", Val.vList [Val.vStr "Review your resume for technical skill alignment"]),
     ("optimized_summary", Val.vStr "Summary unavailable due to fallback mode."),
     ("cover_letter", Val.vStr "Cover letter unavailable due to fallback mode."),
     ("recruiter_message", Val.vStr "Message unavailable due to fallback mode."),
     ("job_title", Val.vStr "Software Engineer"),
     ("company", Val.vStr "Vercel"),
     ("job_url", Val.vStr "https://jobs.lever.co/vercel/xyz123"),
     ("_debug", Val.vDict [("timeout_exceeded", Val.vBool true),
                           ("fallback_mode", Val.vBool true)])]

/-- `_get_timeout_result(_debug)`: mark the debug map, attach it to the
fallback record, and strip `_debug`. -/
def get_timeout_result (dbg : Val) : Val :=
  let dbg := dictSet dbg "timeout_exceeded" (Val.vBool true)
  let dbg := dictSet dbg "total_time_ms" (Val.vInt 55000)
  strip_debug (dictSet get_fallback_json "_debug" dbg)

/-- `_get_extraction_error_result(_debug)`. -/
def get_extraction_error_result (dbg : Val) : Val :=
  let dbg := dictSet dbg "extraction_failed" (Val.vBool true)
  strip_debug (dictSet get_fallback_json "_debug" dbg)

/-- `_get_default_urls()` of the pipeline. -/
def pipelineDefaultUrls : String × String := (defaultJobUrl, defaultJobUrl)

/-- Step 4 of `run_pipeline` (the Analyzer/Writer block): timeout check,
run `analyze_and_write` converting a raise into the fallback record, and
on success merge the pipeline `_debug` map into the result and strip it. -/
def pipelineStep4 (env : PipelineEnv) (resumeJson jobJson dbg : Val) (tr : List String) :
    Val × List String :=
  if env.timeoutAt 3 then (get_timeout_result dbg, tr)
  else
    match analyze_and_write env resumeJson jobJson with
    | .error _ => (get_timeout_result dbg, tr ++ ["analyze"])
    | .ok result =>
        let dbgF := dictSet dbg "total_time_ms" (Val.vInt env.elapsedMs)
        let result1 :=
          if hasKeyD result "_debug" then result
          else dictSet result "_debug" (Val.vDict [])
        let inner := getD result1 "_debug" (Val.vDict [])
        let result2 := dictSet result1 "_debug" (dictUpdate inner dbgF)
        (strip_debug result2, tr ++ ["analyze"])

/-- Step 3 of `run_pipeline` (the Extractor block): timeout check, extract
with primary/backup, on a raise re-try with the hard-coded default URL,
and on a second raise return the extraction-error fallback. -/
def pipelineStep3 (env : PipelineEnv) (resumeJson : Val) (primaryUrl backupUrl : String)
    (dbg : Val) (tr : List String) : Val × List String :=
  if env.timeoutAt 2 then (get_timeout_result dbg, tr)
  else
    let ext := extract_job env primaryUrl (some backupUrl)
    let trace3 := tr ++ ext.2
    match ext.1 with
    | .ok jobJson => pipelineStep4 env resumeJson jobJson dbg trace3
    | .error _ =>
        let retryExt := extract_job env pipelineDefaultUrls.1 none
        match retryExt.1 with
        | .ok jobJson =>
            pipelineStep4 env resumeJson jobJson
              (dictSet dbg "job_url_used" (Val.vStr "default")) (trace3 ++ retryExt.2)
        | .error _ => (get_extraction_error_result dbg, trace3 ++ retryExt.2)

/-- Step 2 of `run_pipeline` (the Selector block): timeout check, load the
registry and select, substituting the fixed default URL pair when the load
raises (`select_job` itself is total). -/
def pipelineStep2 (env : PipelineEnv) (resumeJson : Val) (jobQuery : String)
    (dbg : Val) (tr : List String) : Val × List String :=
  if env.timeoutAt 1 then (get_timeout_result dbg, tr)
  else
    let trace2 := tr ++ ["load_job_map"]
    let selected :=
      match env.jobMap with
      | .ok jm => (select_job jobQuery jm, dictSet dbg "job_url_used" (Val.vStr "primary"))
      | .error _ => (pipelineDefaultUrls, dictSet dbg "job_url_used" (Val.vStr "default_fallback"))
    pipelineStep3 env resumeJson selected.1.1 selected.1.2 selected.2 trace2

/-- `run_pipeline(resume_text, job_query)`.  The first component is the
returned record; the second is the instrumentation trace of delegated
stage work: one `"llm_parse"` per parser delegate call, `"load_job_map"`
for the registry load, the URLs handed to `_extract_from_url`, and
`"analyze"` for the analyzer stage.  The body (split into the per-stage
blocks `pipelineStep2`/`3`/`4` above, in source order) mirrors
`core/pipeline.py`: every stage exception is caught exactly where the
source catches it, so the function is total — no exception reaches the
caller. -/
def run_pipeline (env : PipelineEnv) (resumeText jobQuery : String) : Val × List String :=
  let dbg0 := Val.vDict
    [("parser_attempts", Val.vInt 0), ("job_url_used", Val.vStr ""),
     ("total_time_ms", Val.vInt 0)]
  -- Step 1: Resume Parser Agent
  if env.timeoutAt 0 then (get_timeout_result dbg0, [])
  else
    let parsed := parse_resume env resumeText
    let trace1 := List.replicate parsed.2 "llm_parse"
    match parsed.1 with
    | .error e => (get_error_json e, trace1)
    | .ok resumeJson =>
        let dbg1 := dictSet dbg0 "parser_attempts" (Val.vInt 1)
        if hasKeyD resumeJson "error" then (resumeJson, trace1)
        else pipelineStep2 env resumeJson jobQuery dbg1 trace1

/-! ## Helper lemmas -/

theorem char_ofNat_toNat (n : Nat) (h : n < 55296) : (Char.ofNat n).toNat = n := by
  have hv : n.isValidChar := Or.inl h
  simp only [Char.ofNat, dif_pos hv, Char.toNat, Char.ofNatAux]
  simp [UInt32.toNat, BitVec.toNat_ofNat]

theorem pyToLower_fixed (c : Char) : pyToLower (pyToLower c) = pyToLower c := by
  by_cases h : 65 ≤ c.toNat ∧ c.toNat ≤ 90
  · have h1 : pyToLower c = Char.ofNat (c.toNat + 32) := by simp [pyToLower, h]
    have h2 : (Char.ofNat (c.toNat + 32)).toNat = c.toNat + 32 :=
      char_ofNat_toNat _ (by omega)
    rw [h1]
    simp only [pyToLower, h2]
    rw [if_neg (by omega)]
  · simp [pyToLower, h]

theorem mem_of_mem_dropWhileChar {a : Char} {p : Char → Bool} :
    ∀ {l : List Char}, a ∈ l.dropWhile p → a ∈ l := by
  intro l
  induction l with
  | nil => simp [List.dropWhile]
  | cons c t ih =>
      simp only [List.dropWhile]
      split
      · intro h
        exact List.mem_cons_of_mem _ (ih h)
      · exact fun h => h

theorem mem_of_mem_stripChars {a : Char} {l : List Char} (h : a ∈ stripChars l) : a ∈ l := by
  unfold stripChars at h
  rw [List.mem_reverse] at h
  have h2 := mem_of_mem_dropWhileChar h
  rw [List.mem_reverse] at h2
  exact mem_of_mem_dropWhileChar h2

theorem mem_normalizeToken_lower {a : Char} {s : String}
    (h : a ∈ (normalizeToken s).data) : a ∈ lowerChars s.data := by
  unfold normalizeToken at h
  simp only [String.data] at h
  have h1 := (List.mem_filter.mp h).1
  have h2 := (List.mem_filter.mp h1).1
  have h3 : a ∈ stripChars (lowerChars s.data) := by
    split at h2
    · exact List.mem_of_mem_take h2
    · split at h2
      · exact List.mem_of_mem_take h2
      · exact h2
  exact mem_of_mem_stripChars h3

theorem normalizeToken_lowercase (s : String) :
    lowerS (normalizeToken s) = normalizeToken s := by
  have hfix : ∀ a ∈ (normalizeToken s).data, pyToLower a = a := by
    intro a ha
    have := mem_normalizeToken_lower ha
    simp only [lowerChars, List.mem_map] at this
    obtain ⟨    b, _, hb⟩ := this
    rw [← hb]
    exact pyToLower_fixed b
  show (⟨(normalizeToken s).data.map pyToLower⟩ : String) = normalizeToken s
  rw [List.map_congr_left hfix, List.map_id']

theorem normalizeToken_no_whitespace (s : String) :
    ∀ a ∈ (normalizeToken s).data, isPySpace a = false := by
  intro a ha
  unfold normalizeToken at ha
  simp only [String.data] at ha
  have h1 := (List.mem_filter.mp ha).1
  have h2 := (List.mem_filter.mp h1).2
  simpa using h2

/-- The seen-set dedup loop, in isolation. -/
def dedupSeen (seen : List String) : List String → List String
  | [] => []
  | t :: rest => if t ∈ seen then dedupSeen seen rest else t :: dedupSeen (t :: seen) rest

/-- The string tokens a `Val` list contributes to `normalize_skills`, after
per-token normalization and dropping empties. -/
def skillTokens (xs : List Val) : List String :=
  ((xs.filterMap (fun v => match v with | Val.vStr s => some s | _ => none)).map
    normalizeToken).filter (fun t => t ≠ "")

theorem normSkillsGo_eq_dedupSeen (xs : List Val) (seen : List String) :
    normSkillsGo xs seen = dedupSeen seen (skillTokens xs) := by
  induction xs generalizing seen with
  | nil => simp [normSkillsGo, skillTokens, dedupSeen]
  | cons v rest ih =>
      cases v with
      | vStr s =>
          by_cases he : normalizeToken s = ""
          · simp [normSkillsGo, skillTokens, he, List.filterMap, ih]
          · by_cases hs : normalizeToken s ∈ seen
            · simp [normSkillsGo, skillTokens, he, hs, List.filterMap, dedupSeen,
                ih, skillTokens]
            · simp [normSkillsGo, skillTokens, he, hs, List.filterMap, dedupSeen,
                ih, skillTokens]
      | vNull => simpa [normSkillsGo, skillTokens, List.filterMap] using ih seen
      | vBool b => simpa [normSkillsGo, skillTokens, List.filterMap] using ih seen
      | vInt n => simpa [normSkillsGo, skillTokens, List.filterMap] using ih seen
      | vRat q => simpa [normSkillsGo, skillTokens, List.filterMap] using ih seen
      | vList l => simpa [normSkillsGo, skillTokens, List.filterMap] using ih seen
      | vDict l => simpa [normSkillsGo, skillTokens, List.filterMap] using ih seen

theorem dedupSeen_not_mem_seen (seen : List String) (l : List String) :
    ∀ x ∈ dedupSeen seen l, x ∉ seen := by
  induction l generalizing seen with
  | nil => simp [dedupSeen]
  | cons t rest ih =>
      intro x hx
      simp only [dedupSeen] at hx
      split at hx
      · exact ih seen x hx
      · rcases List.mem_cons.mp hx with h | h
        · subst h; assumption
        · have := ih (t :: seen) x h
          exact fun hc => this (List.mem_cons_of_mem _ hc)

theorem dedupSeen_nodup (seen : List String) (l : List String) :
    (dedupSeen seen l).Nodup := by
  induction l generalizing seen with
  | nil => simp [dedupSeen]
  | cons t rest ih =>
      simp only [dedupSeen]
      split
      · exact ih seen
      · refine List.nodup_cons.mpr ⟨fun hc => ?_, ih (t :: seen)⟩
        exact dedupSeen_not_mem_seen (t :: seen) rest t hc (List.mem_cons_self t seen)

theorem dedupSeen_sub (seen : List String) (l : List String) :
    ∀ x ∈ dedupSeen seen l, x ∈ l := by
  induction l generalizing seen with
  | nil => simp [dedupSeen]
  | cons t rest ih =>
      intro x hx
      simp only [dedupSeen] at hx
      split at hx
      · exact List.mem_cons_of_mem _ (ih seen x hx)
      · rcases List.mem_cons.mp hx with h | h
        · exact h ▸ List.mem_cons_self x rest
        · exact List.mem_cons_of_mem _ (ih (t :: seen) x h)

theorem dedupSeen_eq_dedupKeepFirst (l : List String) (seen : List String) :
    dedupSeen seen l = (dedupKeepFirst l).filter (fun x => x ∉ seen) := by
  induction l generalizing seen with
  | nil => simp [dedupSeen, dedupKeepFirst]
  | cons t rest ih =>
      by_cases hs : t ∈ seen
      · simp only [dedupSeen, if_pos hs, dedupKeepFirst, List.filter_cons]
        rw [if_neg (by simpa using hs), ih seen, List.filter_filter]
        apply List.filter_congr
        intro x _
        by_cases hx : x ∈ seen
        · simp [hx]
        · have hxt : x ≠ t := fun he => hx (he ▸ hs)
          simp [hx, hxt]
      · simp only [dedupSeen, if_neg hs, dedupKeepFirst, List.filter_cons]
        rw [if_pos (by simpa using hs)]
        congr 1
        rw [ih (t :: seen), List.filter_filter]
        apply List.filter_congr
        intro x _
        simp [List.mem_cons, Bool.not_or, Bool.and_comm]

/-! ## Concrete environments for witnesses and counterexamples -/

/-- A run whose delegated calls all fail (no network, no LLM): the wall
clock never expires, every delegate raises. -/
def baseEnv : PipelineEnv :=
  { timeoutAt := fun _ => false
    elapsedMs := 0
    nfkd := id
    parseJson := fun _ _ => .error "LLM call failed"
    jobMap := .error "job_map.json not found"
    fetch := fun _ => .error "network error"
    stripHtml := id
    exJobTitle := fun _ => "Software Engineer"
    exCompany := fun _ _ => "Nava"
    exSkills := fun _ => ["python"]
    exResps := fun _ => ["Build APIs and services"]
    exExpLevel := fun _ => "Senior"
    expResp := fun _ => .ok "8"
    summaryResp := fun _ => .ok "A summary."
    coverResp := fun _ => .ok "A cover letter."
    recruiterResp := fun _ => .ok "A message." }

/-- Like `baseEnv` but the page fetch succeeds. -/
def envFetchOk : PipelineEnv := { baseEnv with fetch := fun _ => .ok "page" }

/-- Like `baseEnv` but the wall clock has already expired. -/
def envTimeout : PipelineEnv := { baseEnv with timeoutAt := fun _ => true }

/-! ## Claim C2: the final-score formula -/

theorem rat_floor_eq_floor (q : ℚ) : q.floor = ⌊q⌋ := rfl

/-- Modelled from the spec's words (§4.5): `final_score = round(40 ×
skill_overlap + 40 × (experience_score/10) + 20 × (1.0 if edu_match else
0.6))`, clamped to `[0,100]` (with Python's round-half-to-even). -/
def specFinalScore (so : ℚ) (es : Int) (edu : Bool) : Int :=
  max 0 (min 100 (pyRound (40 * so + 40 * ((es : ℚ) / 10) + 20 * (if edu then 1 else 0.6))))

/-- C2: the final match score equals the spec formula for all inputs; the
inputs (0.8, 8, true) yield 84 and (0.5, 5, false) yield 52; and the score
is always in [0, 100] (clamping makes this hold for all inputs, hence in
particular for skill_overlap ∈ [0,1] and experience_score ∈ [0,10]). -/
theorem final_score_formula :
    calculate_final_score (4 / 5 : ℚ) 8 true = 84 ∧
    calculate_final_score (1 / 2 : ℚ) 5 false = 52 ∧
    ∀ (so : ℚ) (es : Int) (edu : Bool),
      calculate_final_score so es edu = specFinalScore so es edu ∧
      0 ≤ calculate_final_score so es edu ∧ calculate_final_score so es edu ≤ 100 := by
  refine ⟨?_, ?_, ?_⟩
  · unfold calculate_final_score pyRound
    norm_num [rat_floor_eq_floor]
  · unfold calculate_final_score pyRound
    norm_num [rat_floor_eq_floor]
  intro so es edu
  refine ⟨rfl, le_max_left 0 _, ?_⟩
  unfold calculate_final_score
  exact max_le (by norm_num) (min_le_left _ _)

/-! ## Claim C9: `normalize_skills` output invariants -/

/-- Modelled from the spec's words (§4.1): reject non-strings, normalize
each token, drop empties, deduplicate keeping first-seen order, truncate
to the first 10. -/
def specNormalizeSkills (skills : List Val) : List String :=
  (dedupKeepFirst (skillTokens skills)).take 10

/-- C9: `normalize_skills` returns at most 10 entries, with no duplicates,
every entry lowercase and whitespace-free, and equals the first 10 of the
first-seen-order dedup of the normalized tokens. -/
theorem normalize_skills_invariants (skills : List Val) :
    (normalize_skills skills).length ≤ 10 ∧
    (normalize_skills skills).Nodup ∧
    (∀ s ∈ normalize_skills skills, lowerS s = s ∧ ∀ a ∈ s.data, isPySpace a = false) ∧
    normalize_skills skills = specNormalizeSkills skills := by
  have heq : normalize_skills skills = (dedupSeen [] (skillTokens skills)).take 10 := by
    unfold normalize_skills
    rw [normSkillsGo_eq_dedupSeen]
  have hsd : dedupSeen ([] : List String) (skillTokens skills) =
      dedupKeepFirst (skillTokens skills) := by
    rw [dedupSeen_eq_dedupKeepFirst]
    exact List.filter_eq_self.mpr (by simp)
  refine ⟨?_, ?_, ?_, ?_⟩
  · rw [heq]
    exact List.length_take_le 10 _
  · rw [heq]
    exact (dedupSeen_nodup [] _).sublist (List.take_sublist 10 _)
  · intro s hs
    rw [heq] at hs
    have hmem := dedupSeen_sub [] _ s (List.mem_of_mem_take hs)
    have : ∃ s0, s = normalizeToken s0 := by
      unfold skillTokens at hmem
      have := (List.mem_filter.mp hmem).1
      simp only [List.mem_map] at this
      obtain ⟨s0, _, h0⟩ := this
      exact ⟨s0, h0.symm⟩
    obtain ⟨s0, rfl⟩ := this
    exact ⟨normalizeToken_lowercase s0, normalizeToken_no_whitespace s0⟩
  · rw [heq, hsd]
    rfl

theorem normalize_skills_invariants_witness :
    (normalize_skills [Val.vStr "React", Val.vStr "react", Val.vStr "React.js"]).length ≤ 10 ∧
    lowerS "react" = "react" :=
  ⟨(normalize_skills_invariants [Val.vStr "React", Val.vStr "react", Val.vStr "React.js"]).1,
    ((normalize_skills_invariants [Val.vStr "React", Val.vStr "react", Val.vStr "React.js"]).2.2.1
      "react" (by decide)).1⟩

/-! ## Claim C10: non-string inputs to the text utilities -/

/-- C10: on any non-string value, `preprocess_resume_text` returns the
empty string and `count_words` returns 0; both are total functions of the
embedding (no exception path exists). -/
theorem non_string_inputs_total (nfkd : String → String) (text : Val)
    (h : isStrV text = false) :
    preprocess_resume_text nfkd text = "" ∧ count_words text = 0 := by
  cases text <;> simp_all [preprocess_resume_text, count_words, isStrV]

theorem non_string_inputs_total_witness :
    isStrV (Val.vInt 3) = false ∧
    preprocess_resume_text id (Val.vInt 3) = "" ∧ count_words (Val.vInt 3) = 0 :=
  ⟨rfl, (non_string_inputs_total id (Val.vInt 3) rfl).1,
    (non_string_inputs_total id (Val.vInt 3) rfl).2⟩

/-! ## Claims C4 and C6: the extractor fallback chain and allow-list -/

theorem parse_job_content_shape (env : PipelineEnv) (c u : String) :
    keysOf (parse_job_content env c u) = jobKeys ∧
    validate_job_schema (parse_job_content env c u) = true := ⟨rfl, rfl⟩

theorem extract_from_url_ok_shape (env : PipelineEnv) (u : String) (v : Val)
    (h : extract_from_url env u = .ok v) :
    keysOf v = jobKeys ∧ validate_job_schema v = true := by
  unfold extract_from_url at h
  cases hf : env.fetch u with
  | error e => rw [hf] at h; cases h
  | ok c =>
      rw [hf] at h
      injection h with h2
      exact h2 ▸ parse_job_content_shape env c u

theorem allowed_defaultJobUrl : is_allowed_domain defaultJobUrl = true := by decide

theorem extract_job_tail_trace_allowed (env : PipelineEnv) (b : Option String)
    (tr : List String) :
    ∀ u ∈ (extract_job_tail env b tr).2, u ∈ tr ∨ is_allowed_domain u = true := by
  intro u hu
  cases b with
  | none =>
      simp only [extract_job_tail] at hu
      rcases List.mem_append.mp hu with h | h
      · exact .inl h
      · simp only [List.mem_singleton] at h
        exact .inr (h ▸ allowed_defaultJobUrl)
  | some bu =>
      simp only [extract_job_tail] at hu
      by_cases hb : (decide (bu ≠ "") && is_allowed_domain bu) = true
      · have hbu : is_allowed_domain bu = true := by
          rw [Bool.and_eq_true] at hb
          exact hb.2
        rw [if_pos hb] at hu
        cases hx : extract_from_url env bu with
        | ok r =>
            rw [hx] at hu
            rcases List.mem_append.mp hu with h | h
            · exact .inl h
            · simp only [List.mem_singleton] at h
              exact .inr (h ▸ hbu)
        | error e2 =>
            rw [hx] at hu
            rcases List.mem_append.mp hu with h | h
            · exact .inl h
            · rcases List.mem_cons.mp h with h2 | h2
              · exact .inr (h2 ▸ hbu)
              · simp only [List.mem_singleton] at h2
                exact .inr (h2 ▸ allowed_defaultJobUrl)
      · rw [if_neg hb] at hu
        rcases List.mem_append.mp hu with h | h
        · exact .inl h
        · simp only [List.mem_singleton] at h
          exact .inr (h ▸ allowed_defaultJobUrl)

theorem extract_job_trace_allowed (env : PipelineEnv) (p : String) (b : Option String) :
    ∀ u ∈ (extract_job env p b).2, is_allowed_domain u = true := by
  intro u hu
  unfold extract_job at hu
  by_cases hp : (decide (p ≠ "") && is_allowed_domain p) = true
  · have hpa : is_allowed_domain p = true := by
      rw [Bool.and_eq_true] at hp
      exact hp.2
    rw [if_pos hp] at hu
    cases hx : extract_from_url env p with
    | ok r =>
        rw [hx] at hu
        simp only [List.mem_singleton] at hu
        exact hu ▸ hpa
    | error e2 =>
        rw [hx] at hu
        rcases extract_job_tail_trace_allowed env b [p] u hu with hin | hall
        · simp only [List.mem_singleton] at hin
          exact hin ▸ hpa
        · exact hall
  · rw [if_neg hp] at hu
    rcases extract_job_tail_trace_allowed env b [] u hu with hin | hall
    · cases hin
    · exact hall

/-- C6: a URL rejected by the domain allow-list check (its host, per the
spec, must contain one of the four ATS platform suffixes) is never handed
to `_extract_from_url`, whether it appears as the primary or as the backup
candidate: it is an immediate, silent non-match. -/
theorem disallowed_domain_never_attempted (env : PipelineEnv) (p : String)
    (b : Option String) (u : String) (h : is_allowed_domain u = false) :
    u ∉ (extract_job env p b).2 := by
  intro hu
  have := extract_job_trace_allowed env p b u hu
  rw [h] at this
  cases this

theorem disallowed_domain_never_attempted_witness :
    is_allowed_domain "https://example.com/job" = false ∧
    "https://example.com/job" ∉
      (extract_job baseEnv "https://example.com/job" (some "https://example.com/job")).2 :=
  ⟨by decide,
    disallowed_domain_never_attempted baseEnv "https://example.com/job"
      (some "https://example.com/job") "https://example.com/job" (by decide)⟩

theorem extract_job_tail_ok (env : PipelineEnv) (b : Option String) (tr : List String)
    (v : Val) (h : (extract_job_tail env b tr).1 = .ok v) :
    ∃ x, extract_from_url env x = .ok v := by
  cases b with
  | none =>
      simp only [extract_job_tail] at h
      exact ⟨defaultJobUrl, h⟩
  | some bu =>
      simp only [extract_job_tail] at h
      by_cases hb : (decide (bu ≠ "") && is_allowed_domain bu) = true
      · rw [if_pos hb] at h
        cases hx : extract_from_url env bu with
        | ok r =>
            try rw [hx] at h
            injection h with h2
            exact ⟨bu, by rw [hx, h2]⟩
        | error e2 =>
            try rw [hx] at h
            exact ⟨defaultJobUrl, h⟩
      · rw [if_neg hb] at h
        exact ⟨defaultJobUrl, h⟩

theorem extract_job_tail_error (env : PipelineEnv) (b : Option String) (tr : List String)
    (e : String) (h : (extract_job_tail env b tr).1 = .error e) :
    extract_from_url env defaultJobUrl = .error e ∧
    defaultJobUrl ∈ (extract_job_tail env b tr).2 := by
  cases b with
  | none =>
      simp only [extract_job_tail] at h ⊢
      exact ⟨h, by simp⟩
  | some bu =>
      simp only [extract_job_tail] at h ⊢
      by_cases hb : (decide (bu ≠ "") && is_allowed_domain bu) = true
      · rw [if_pos hb] at h ⊢
        cases hx : extract_from_url env bu with
        | ok r =>
            try rw [hx] at h
            simp at h
        | error e2 =>
            try rw [hx] at h
            try rw [hx]
            exact ⟨h, by simp⟩
      · rw [if_neg hb] at h ⊢
        exact ⟨h, by simp⟩

theorem extract_job_tail_def_ok (env : PipelineEnv) (b : Option String) (tr : List String)
    (v : Val) (h : extract_from_url env defaultJobUrl = .ok v) :
    ∃ w, (extract_job_tail env b tr).1 = .ok w := by
  cases b with
  | none =>
      simp only [extract_job_tail]
      exact ⟨v, h⟩
  | some bu =>
      simp only [extract_job_tail]
      by_cases hb : (decide (bu ≠ "") && is_allowed_domain bu) = true
      · rw [if_pos hb]
        cases hx : extract_from_url env bu with
        | ok r =>
            try rw [hx]
            exact ⟨r, rfl⟩
        | error e2 =>
            try rw [hx]
            exact ⟨v, h⟩
      · rw [if_neg hb]
        exact ⟨v, h⟩

/-- C4 (amended): `extract_job` always tries primary (if truthy and
allow-listed), then backup (if truthy and allow-listed), swallowing errors
of those two attempts, and finally attempts the hard-coded default URL
unconditionally; every successful result is a complete, schema-valid
JobRecord; but the terminal default attempt is *not* protected: the only
way `extract_job` fails is by propagating the default-URL attempt's own
error to the caller. -/
theorem extract_job_fallback_chain (env : PipelineEnv) (p : String) (b : Option String) :
    (∀ v, (extract_job env p b).1 = .ok v →
        keysOf v = jobKeys ∧ validate_job_schema v = true) ∧
    (∀ e, (extract_job env p b).1 = .error e →
        extract_from_url env defaultJobUrl = .error e ∧
        defaultJobUrl ∈ (extract_job env p b).2) ∧
    (∀ v, extract_from_url env defaultJobUrl = .ok v →
        ∃ w, (extract_job env p b).1 = .ok w) := by
  refine ⟨?_, ?_, ?_⟩
  · intro v hv
    unfold extract_job at hv
    by_cases hp : (decide (p ≠ "") && is_allowed_domain p) = true
    · rw [if_pos hp] at hv
      cases hx : extract_from_url env p with
      | ok r =>
          try rw [hx] at hv
          injection hv with h2
          exact h2 ▸ extract_from_url_ok_shape env p r hx
      | error e2 =>
          try rw [hx] at hv
          obtain ⟨x, hx2⟩ := extract_job_tail_ok env b [p] v hv
          exact extract_from_url_ok_shape env x v hx2
    · rw [if_neg hp] at hv
      obtain ⟨x, hx2⟩ := extract_job_tail_ok env b [] v hv
      exact extract_from_url_ok_shape env x v hx2
  · intro e he
    unfold extract_job at he ⊢
    by_cases hp : (decide (p ≠ "") && is_allowed_domain p) = true
    · rw [if_pos hp] at he ⊢
      cases hx : extract_from_url env p with
      | ok r =>
          try rw [hx] at he
          simp at he
      | error e2 =>
          try rw [hx] at he
          try rw [hx]
          exact extract_job_tail_error env b [p] e he
    · rw [if_neg hp] at he ⊢
      exact extract_job_tail_error env b [] e he
  · intro v hv
    unfold extract_job
    by_cases hp : (decide (p ≠ "") && is_allowed_domain p) = true
    · rw [if_pos hp]
      cases hx : extract_from_url env p with
      | ok r =>
          try rw [hx]
          exact ⟨r, rfl⟩
      | error e2 =>
          try rw [hx]
          exact extract_job_tail_def_ok env b [p] v hv
    · rw [if_neg hp]
      exact extract_job_tail_def_ok env b [] v hv

theorem extract_job_fallback_chain_witness :
    (extract_job baseEnv "" none).1 = Except.error "network error" ∧
    (extract_from_url baseEnv defaultJobUrl = Except.error "network error" ∧
      defaultJobUrl ∈ (extract_job baseEnv "" none).2) ∧
    (∃ w, (extract_job envFetchOk "" none).1 = Except.ok w) ∧
    keysOf (parse_job_content envFetchOk "page" defaultJobUrl) = jobKeys :=
  ⟨rfl,
    (extract_job_fallback_chain baseEnv "" none).2.1 "network error" rfl,
    (extract_job_fallback_chain envFetchOk "" none).2.2
      (parse_job_content envFetchOk "page" defaultJobUrl) rfl,
    ((extract_job_fallback_chain envFetchOk "" none).1
      (parse_job_content envFetchOk "page" defaultJobUrl) rfl).1⟩

/-- C4 counterexample to the claim as stated: with both primary and backup
allow-listed but every fetch failing, the chain swallows the primary and
backup errors and proceeds (all three URLs are attempted, in order), yet
the terminal default attempt's error escapes `extract_job` to its caller —
refuting "never throws to its caller". -/
theorem extract_job_throws_counterexample :
    (extract_job baseEnv "https://jobs.lever.co/a"
        (some "https://boards.greenhouse.io/b")).1 = Except.error "network error" ∧
    (extract_job baseEnv "https://jobs.lever.co/a"
        (some "https://boards.greenhouse.io/b")).2 =
      ["https://jobs.lever.co/a", "https://boards.greenhouse.io/b", defaultJobUrl] := by
  constructor <;> rfl

/-! ## Claim C5: pre-stage timeout returns the canned fallback -/

/-- The canned fallback record after `_debug` stripping: `match_score`
equals 82. -/
def strippedFallback : Val :=
  Val.vDict
    [("match_score", Val.vInt 82),
     ("score_breakdown", Val.vStr "Fallback mode activated"),
     ("missing_skills", Val.vList []),
     ("strengths", Val.vList []),
     ("how_to_improve", Val.vList [Val.vStr "Review your resume for technical skill alignment"]),
     ("optimized_summary", Val.vStr "Summary unavailable due to fallback mode."),
     ("cover_letter", Val.vStr "Cover letter unavailable due to fallback mode."),
     ("recruiter_message", Val.vStr "Message unavailable due to fallback mode."),
     ("job_title", Val.vStr "Software Engineer"),
     ("company", Val.vStr "Vercel"),
     ("job_url", Val.vStr "https://jobs.lever.co/vercel/xyz123")]

/-- C5: when the elapsed-time check already reports the budget exhausted at
the first stage boundary, `run_pipeline` returns exactly the canned
fallback record (with `_debug` stripped, `match_score = 82`) and the
delegated-work trace is empty — no stage is attempted, whatever the stage
oracles would have done. -/
theorem timeout_before_stages (env : PipelineEnv) (resumeText jobQuery : String)
    (h : env.timeoutAt 0 = true) :
    run_pipeline env resumeText jobQuery = (strippedFallback, []) := by
  unfold run_pipeline
  simp only [h]
  rfl

theorem timeout_before_stages_witness :
    envTimeout.timeoutAt 0 = true ∧
    run_pipeline envTimeout "resume" "query" = (strippedFallback, []) ∧
    getD strippedFallback "match_score" Val.vNull = Val.vInt 82 ∧
    hasKeyD strippedFallback "_debug" = false :=
  ⟨rfl, timeout_before_stages envTimeout "resume" "query" rfl, rfl, rfl⟩

/-! ## Claims C7 and C8: the job selector -/

/-- Registry with an exact-match entry whose `urls` is empty: the C7
counterexample. -/
def cmap7 : JobMap := [("python", ⟨["x"], []⟩), ("default", ⟨[], ["D1", "D2"]⟩)]

/-- Registry where a category name matching the query has an empty tags
list: the C8 counterexample. -/
def cmap8 : JobMap := [("go", ⟨[], ["G"]⟩), ("backend", ⟨["go"], ["B"]⟩), ("default", ⟨[], ["D"]⟩)]

/-- A well-behaved registry for witnesses. -/
def wmap : JobMap := [("python", ⟨["python"], ["P1", "P2"]⟩), ("default", ⟨[], ["D"]⟩)]

/-- C7 counterexample to the claim as stated: `"python"` is selected by
exact key match but its entry's `urls` list is empty; the returned pair is
the default entry's pair, not `("", "")`. -/
theorem select_job_empty_urls_counterexample :
    lookupJM cmap7 "python" = some ⟨["x"], []⟩ ∧
    select_job "python" cmap7 = ("D1", "D2") ∧
    ("D1", "D2") ≠ (("" : String), ("" : String)) :=
  ⟨by decide, by decide, by decide⟩

/-- C7 (amended): the returned pair is `primary = urls[0]`,
`backup = urls[1]` if present else `urls[0]`, for the selected entry; a
demo-prefixed query and the final fallback use the `default` entry, whose
empty or missing `urls` yields `("", "")`; an exact- or fuzzy-matched
entry is only selected when its `urls` is nonempty (an empty `urls` falls
through to the next priority instead of returning empty strings). -/
theorem select_job_url_pair (jm : JobMap) (q : String) :
    (startsWithL (stripS (lowerS q)).data "demo:".data = true →
        select_job q jm = get_default_job_urls jm) ∧
    (∀ d, lookupJM jm "default" = some d → get_default_job_urls jm = urlsPair d.urls) ∧
    (lookupJM jm "default" = none → get_default_job_urls jm = ("", "")) ∧
    (∀ e, startsWithL (stripS (lowerS q)).data "demo:".data = false →
        lookupJM jm (stripS (lowerS q)) = some e → e.urls ≠ [] →
        select_job q jm = urlsPair e.urls) ∧
    (∀ c ec, startsWithL (stripS (lowerS q)).data "demo:".data = false →
        (lookupJM jm (stripS (lowerS q)) = none ∨
          ∃ e, lookupJM jm (stripS (lowerS q)) = some e ∧ e.urls = []) →
        fuzzy_match_tags (stripS (lowerS q)) jm = some c → c ≠ "" →
        lookupJM jm c = some ec → ec.urls ≠ [] →
        select_job q jm = urlsPair ec.urls) := by
  refine ⟨?_, ?_, ?_, ?_, ?_⟩
  · intro h
    unfold select_job
    simp [h]
  · intro d hd
    unfold get_default_job_urls
    rw [hd]
    cases hu : d.urls with
    | nil => simp [hu, urlsPair]
    | cons u t =>
        cases t with
        | nil => simp [hu, urlsPair]
        | cons v t2 => simp [hu, urlsPair]
  · intro hd
    unfold get_default_job_urls
    rw [hd]
    rfl
  · intro e h hl hne
    unfold select_job
    simp only [h, Bool.false_eq_true, if_false, hl]
    rw [if_pos hne]
  · intro c ec h hnotexact hf hcne hlc hcu
    unfold select_job
    simp only [h, Bool.false_eq_true, if_false]
    rcases hnotexact with hn | ⟨e, he, heu⟩
    · simp only [hn, hf, hlc]
      rw [if_neg (by simp [hcne]), if_pos hcu]
    · simp only [he, heu]
      rw [if_neg (by simp)]
      simp only [hf, hlc]
      rw [if_neg (by simp [hcne]), if_pos hcu]

theorem select_job_url_pair_witness :
    select_job "python" wmap = urlsPair ["P1", "P2"] ∧
    select_job "DEMO: anything" wmap = get_default_job_urls wmap ∧
    get_default_job_urls wmap = urlsPair ["D"] :=
  ⟨(select_job_url_pair wmap "python").2.2.2.1 ⟨["python"], ["P1", "P2"]⟩
      (by decide) (by decide) (by decide),
    (select_job_url_pair wmap "DEMO: anything").1 (by decide),
    (select_job_url_pair wmap "DEMO: anything").2.1 ⟨[], ["D"]⟩ (by decide)⟩

/-- The first non-`default` category, in registry order, with a nonempty
tags list whose name is one of the query words. -/
def firstNameHit (qws : List String) : JobMap → Option String
  | [] => none
  | (k, e) :: rest =>
      if k ≠ "default" ∧ e.tags ≠ [] ∧ k ∈ qws then some k else firstNameHit qws rest

theorem fuzzyGo_name_hit (qws : List String) :
    ∀ (jm : JobMap) (c : String) (best : Option String) (bs : Nat),
      firstNameHit qws jm = some c → fuzzyGo qws jm best bs = some c := by
  intro jm
  induction jm with
  | nil =>
      intro c best bs hc
      simp [firstNameHit] at hc
  | cons p rest ih =>
      intro c best bs hc
      obtain ⟨k, e⟩ := p
      simp only [firstNameHit] at hc
      simp only [fuzzyGo]
      by_cases h1 : k ≠ "default" ∧ e.tags ≠ [] ∧ k ∈ qws
      · rw [if_pos h1] at hc
        injection hc with hc2
        subst hc2
        rw [if_neg h1.1, if_neg h1.2.1, if_pos h1.2.2]
      · rw [if_neg h1] at hc
        by_cases hd : k = "default"
        · rw [if_pos hd]
          exact ih c best bs hc
        · rw [if_neg hd]
          by_cases ht : e.tags = []
          · rw [if_pos ht]
            exact ih c best bs hc
          · rw [if_neg ht]
            by_cases hk : k ∈ qws
            · exact absurd ⟨hd, ht, hk⟩ h1
            · rw [if_neg hk]
              split
              · exact ih c _ _ hc
              · exact ih c best bs hc

/-- C8 (amended): during fuzzy matching, the first non-`default` category
(in registry order) with a *nonempty tags list* whose name is one of the
query's words is selected immediately, whatever tag-overlap or
semantic-bonus scores any category would have accumulated.  (A category
with an empty tags list is skipped by the `if not tags: continue` guard
before the name check — see the counterexample.) -/
theorem fuzzy_name_hit_selected (q : String) (jm : JobMap) (c : String)
    (h : firstNameHit (queryWordSet q) jm = some c) :
    fuzzy_match_tags q jm = some c :=
  fuzzyGo_name_hit (queryWordSet q) jm c none 0 h

theorem fuzzy_name_hit_selected_witness :
    firstNameHit (queryWordSet "python developer") wmap = some "python" ∧
    fuzzy_match_tags "python developer" wmap = some "python" :=
  ⟨by decide, fuzzy_name_hit_selected "python developer" wmap "python" (by decide)⟩

/-- C8 counterexample to the claim as stated: the category `"go"` is a
registry key, is not `"default"`, and its name is a query word, yet fuzzy
matching selects `"backend"` (whose tags overlap the query) because the
`"go"` entry has an empty tags list and is skipped before the name
check. -/
theorem fuzzy_name_skipped_counterexample :
    ("go" ∈ cmap8.map (fun p => p.1) ∧ "go" ≠ "default" ∧
      "go" ∈ queryWordSet "go") ∧
    fuzzy_match_tags "go" cmap8 = some "backend" ∧ some "backend" ≠ some "go" :=
  ⟨by decide, by decide, by decide⟩

/-! ## Claim C3: the parser retry and its error record -/

/-- One parse attempt fails in the sense of C3: the delegated extraction
call raises, or the normalized result fails resume-schema validation. -/
def attemptFails (env : PipelineEnv) (text : String) (k : Nat) : Prop :=
  (∃ e, env.parseJson k (parsePromptOf (preprocessStr env.nfkd text)) = .error e) ∨
  (∃ v w, env.parseJson k (parsePromptOf (preprocessStr env.nfkd text)) = .ok v ∧
    normalizeParsed v = .ok w ∧ validate_resume_schema w = false)

/-- C3: whenever both delegate attempts fail (a raise, or a
schema-validation failure of the normalized result), `parse_resume`
performs exactly 2 delegate calls (one retry) and returns — without
raising — the `_get_error_json` record, whose `match_score` is null and
whose list and string fields are all at their empty defaults.  However the
record's key set is the FinalRecord keys *minus `score_breakdown`* plus
`error`, not the FinalRecord keys plus `error` as claimed: the code omits
`score_breakdown`, contradicting `_get_error_json`'s own docstring
("matching final output schema shape"). -/
theorem parse_retry_error_record (env : PipelineEnv) (text : String)
    (h0 : attemptFails env text 0) (h1 : attemptFails env text 1) :
    (∃ m, parse_resume env text = (.ok (get_error_json m), 2)) ∧
    (∀ m, keysOf (get_error_json m) = parseErrorKeys ∧
      getD (get_error_json m) "match_score" (Val.vInt 0) = Val.vNull ∧
      getD (get_error_json m) "missing_skills" Val.vNull = Val.vList [] ∧
      getD (get_error_json m) "strengths" Val.vNull = Val.vList [] ∧
      getD (get_error_json m) "how_to_improve" Val.vNull = Val.vList [] ∧
      getD (get_error_json m) "optimized_summary" Val.vNull = Val.vStr "" ∧
      getD (get_error_json m) "cover_letter" Val.vNull = Val.vStr "" ∧
      getD (get_error_json m) "recruiter_message" Val.vNull = Val.vStr "" ∧
      getD (get_error_json m) "job_title" Val.vNull = Val.vStr "" ∧
      getD (get_error_json m) "company" Val.vNull = Val.vStr "" ∧
      getD (get_error_json m) "job_url" Val.vNull = Val.vStr "" ∧
      isStrV (getD (get_error_json m) "error" Val.vNull) = true) ∧
    parseErrorKeys ≠ finalKeys ++ ["error"] ∧
    "score_breakdown" ∈ finalKeys ∧ "score_breakdown" ∉ parseErrorKeys := by
  refine ⟨?_, ?_, by decide, by decide, by decide⟩
  · rcases h0 with ⟨e0, he0⟩ | ⟨v0, w0, hv0, hw0, hval0⟩ <;>
      rcases h1 with ⟨e1, he1⟩ | ⟨v1, w1, hv1, hw1, hval1⟩
    · refine ⟨e1, ?_⟩
      show parseResumeRec env text 2 0 = _
      simp [parseResumeRec, he0, he1]
    · refine ⟨"Schema validation failed: invalid resume schema", ?_⟩
      show parseResumeRec env text 2 0 = _
      simp [parseResumeRec, he0, hv1, hw1, hval1]
    · refine ⟨e1, ?_⟩
      show parseResumeRec env text 2 0 = _
      simp [parseResumeRec, hv0, hw0, hval0, he1]
    · refine ⟨"Schema validation failed: invalid resume schema", ?_⟩
      show parseResumeRec env text 2 0 = _
      simp [parseResumeRec, hv0, hw0, hval0, hv1, hw1, hval1]
  · intro m
    exact ⟨rfl, rfl, rfl, rfl, rfl, rfl, rfl, rfl, rfl, rfl, rfl, rfl⟩

theorem parse_retry_error_record_witness :
    attemptFails baseEnv "resume" 0 ∧ attemptFails baseEnv "resume" 1 ∧
    (∃ m, parse_resume baseEnv "resume" = (.ok (get_error_json m), 2)) :=
  ⟨Or.inl ⟨"LLM call failed", rfl⟩, Or.inl ⟨"LLM call failed", rfl⟩,
    (parse_retry_error_record baseEnv "resume" (Or.inl ⟨"LLM call failed", rfl⟩)
      (Or.inl ⟨"LLM call failed", rfl⟩)).1⟩

/-! ## Claim C1: shape of every pipeline result -/

theorem exceptBind_ok {α β : Type} (x : Except String α) (f : α → Except String β) (b : β)
    (h : (x >>= f) = .ok b) : ∃ a, x = .ok a ∧ f a = .ok b := by
  cases x with
  | error e => exact Except.noConfusion h
  | ok a => exact ⟨a, rfl, h⟩

theorem buildResumeRecord_ok_shape (p v : Val) (h : buildResumeRecord p = .ok v) :
    keysOf v = resumeKeys ∧ hasKeyD v "error" = false := by
  cases p <;> simp only [buildResumeRecord] at h
  case vDict l =>
    rw [Except.ok.injEq] at h
    subst h
    exact ⟨rfl, rfl⟩
  all_goals exact Except.noConfusion h

theorem normalizeParsed_ok_shape (p v : Val) (h : normalizeParsed p = .ok v) :
    keysOf v = resumeKeys ∧ hasKeyD v "error" = false := by
  unfold normalizeParsed at h
  obtain ⟨p1, _, h2⟩ := exceptBind_ok _ _ _ h
  obtain ⟨p2, _, h3⟩ := exceptBind_ok _ _ _ h2
  exact buildResumeRecord_ok_shape p2 v h3

theorem parseResumeRec_ok_cases (env : PipelineEnv) (text : String) :
    ∀ (fuel retry : Nat) (v : Val), (parseResumeRec env text fuel retry).1 = .ok v →
      (∃ m, v = get_error_json m) ∨
        (keysOf v = resumeKeys ∧ hasKeyD v "error" = false) := by
  intro fuel
  induction fuel with
  | zero =>
      intro retry v h
      simp [parseResumeRec] at h
  | succ fuel ih =>
      intro retry v h
      simp only [parseResumeRec] at h
      cases hj : env.parseJson retry (parsePromptOf (preprocessStr env.nfkd text)) with
      | error e =>
          simp only [hj] at h
          by_cases hr : retry < 1
          · rw [if_pos hr] at h
            exact ih (retry + 1) v h
          · rw [if_neg hr] at h
            injection h with h2
            exact .inl ⟨e, h2.symm⟩
      | ok pd =>
          simp only [hj] at h
          cases hn : normalizeParsed pd with
          | error e2 =>
              simp only [hn] at h
              exact Except.noConfusion h
          | ok w =>
              simp only [hn] at h
              by_cases hv : validate_resume_schema w = true
              · rw [if_pos hv] at h
                injection h with h2
                exact .inr (h2 ▸ normalizeParsed_ok_shape pd w hn)
              · rw [if_neg hv] at h
                by_cases hr : retry < 1
                · rw [if_pos hr] at h
                  exact ih (retry + 1) v h
                · rw [if_neg hr] at h
                  injection h with h2
                  exact .inl ⟨_, h2.symm⟩

theorem assembleFinal_shape (p : AnalyzeParts) :
    keysOf (assembleFinal p) = finalKeys ++ ["_debug"] ∧
    hasKeyD (assembleFinal p) "_debug" = true := by
  unfold assembleFinal
  dsimp only
  split
  · exact ⟨rfl, rfl⟩
  · exact ⟨rfl, rfl⟩

theorem analyze_ok_shape (env : PipelineEnv) (r j v : Val)
    (h : analyze_and_write env r j = .ok v) :
    keysOf v = finalKeys ++ ["_debug"] ∧ hasKeyD v "_debug" = true := by
  unfold analyze_and_write at h
  cases hp : analyzeParts env r j with
  | error e =>
      rw [hp] at h
      exact Except.noConfusion h
  | ok parts =>
      rw [hp] at h
      injection h with h2
      exact h2 ▸ assembleFinal_shape parts

theorem setAssoc_map_fst_mem (l : List (String × Val)) (k : String) (x : Val)
    (h : k ∈ l.map (fun p => p.1)) :
    (setAssoc l k x).map (fun p => p.1) = l.map (fun p => p.1) := by
  induction l with
  | nil => simp at h
  | cons p t ih =>
      obtain ⟨k2, w⟩ := p
      simp only [setAssoc]
      by_cases he : k2 = k
      · rw [if_pos he]
        simp [he]
      · rw [if_neg he]
        simp only [List.map_cons]
        congr 1
        apply ih
        simp only [List.map_cons, List.mem_cons] at h
        rcases h with h | h
        · exact absurd h.symm he
        · exact h

theorem map_fst_filter_ne (l : List (String × Val)) (k0 : String) :
    (l.filter (fun p => p.1 ≠ k0)).map (fun p => p.1) =
    (l.map (fun p => p.1)).filter (fun k => k ≠ k0) := by
  induction l with
  | nil => rfl
  | cons p t ih =>
      by_cases h : p.1 = k0
      · have h1 : (decide (p.1 ≠ k0)) = false := by simp [h]
        simp only [List.filter_cons, List.map_cons, h1, Bool.false_eq_true, if_false]
        exact ih
      · have h1 : (decide (p.1 ≠ k0)) = true := by simp [h]
        simp only [List.filter_cons, List.map_cons, h1, if_true]
        rw [ih]

theorem any_fst_filter_ne (l : List (String × Val)) (k0 : String) :
    (l.filter (fun p => p.1 ≠ k0)).any (fun p => p.1 == k0) = false := by
  induction l with
  | nil => rfl
  | cons p t ih =>
      by_cases h : p.1 = k0 <;> simp_all [List.filter_cons, h, ih]

theorem any_fst_of_mem (l : List (String × Val)) (k : String)
    (h : k ∈ l.map (fun p => p.1)) : l.any (fun p => p.1 == k) = true := by
  rw [List.any_eq_true]
  simp only [List.mem_map] at h
  obtain ⟨p, hp, he⟩ := h
  exact ⟨p, hp, by simp [he]⟩

theorem keysOf_get_timeout_result (dbg : Val) :
    keysOf (get_timeout_result dbg) = finalKeys ∧
    hasKeyD (get_timeout_result dbg) "_debug" = false := ⟨rfl, rfl⟩

theorem keysOf_get_extraction_error_result (dbg : Val) :
    keysOf (get_extraction_error_result dbg) = finalKeys ∧
    hasKeyD (get_extraction_error_result dbg) "_debug" = false := ⟨rfl, rfl⟩

/-- The C1 invariant: a record handed back by the pipeline carries no
`_debug` key and has exactly the FinalRecord key set or exactly the
parse-error key set. -/
def RecordOk (v : Val) : Prop :=
  hasKeyD v "_debug" = false ∧ (keysOf v = finalKeys ∨ keysOf v = parseErrorKeys)

theorem pipelineStep4_shape (env : PipelineEnv) (r j dbg : Val) (tr : List String) :
    RecordOk (pipelineStep4 env r j dbg tr).1 := by
  unfold pipelineStep4
  by_cases ht : env.timeoutAt 3 = true
  · rw [if_pos ht]
    exact ⟨(keysOf_get_timeout_result dbg).2, .inl (keysOf_get_timeout_result dbg).1⟩
  · rw [if_neg ht]
    cases ha : analyze_and_write env r j with
    | error e =>
        exact ⟨(keysOf_get_timeout_result dbg).2, .inl (keysOf_get_timeout_result dbg).1⟩
    | ok result =>
        obtain ⟨hk, hd⟩ := analyze_ok_shape env r j result ha
        cases result with
        | vNull => simp [keysOf, finalKeys] at hk
        | vBool b => simp [keysOf, finalKeys] at hk
        | vInt n => simp [keysOf, finalKeys] at hk
        | vRat q => simp [keysOf, finalKeys] at hk
        | vStr s => simp [keysOf, finalKeys] at hk
        | vList xs => simp [keysOf, finalKeys] at hk
        | vDict l =>
            dsimp only
            rw [if_pos hd]
            generalize dictUpdate (getD (Val.vDict l) "_debug" (Val.vDict []))
                (dictSet dbg "total_time_ms" (Val.vInt env.elapsedMs)) = X
            have hmem : "_debug" ∈ l.map (fun p => p.1) := by
              rw [show l.map (fun p => p.1) = finalKeys ++ ["_debug"] from hk]
              simp
            have hset : (setAssoc l "_debug" X).map (fun p => p.1) = l.map (fun p => p.1) :=
              setAssoc_map_fst_mem l _ X hmem
            have hany : (setAssoc l "_debug" X).any (fun p => p.1 == "_debug") = true :=
              any_fst_of_mem _ _ (by rw [hset]; exact hmem)
            simp only [dictSet, strip_debug]
            rw [if_pos hany]
            constructor
            · exact any_fst_filter_ne _ _
            · left
              simp only [keysOf]
              rw [map_fst_filter_ne, hset,
                show l.map (fun p => p.1) = finalKeys ++ ["_debug"] from hk]
              decide

theorem pipelineStep3_shape (env : PipelineEnv) (r : Val) (pu bu : String) (dbg : Val)
    (tr : List String) : RecordOk (pipelineStep3 env r pu bu dbg tr).1 := by
  unfold pipelineStep3
  by_cases ht : env.timeoutAt 2 = true
  · rw [if_pos ht]
    exact ⟨(keysOf_get_timeout_result dbg).2, .inl (keysOf_get_timeout_result dbg).1⟩
  · rw [if_neg ht]
    dsimp only
    cases h1 : (extract_job env pu (some bu)).1 with
    | ok jobJson => exact pipelineStep4_shape env r jobJson dbg _
    | error e =>
        cases h2 : (extract_job env pipelineDefaultUrls.1 none).1 with
        | ok jobJson => exact pipelineStep4_shape env r jobJson _ _
        | error e2 =>
            exact ⟨(keysOf_get_extraction_error_result dbg).2,
              .inl (keysOf_get_extraction_error_result dbg).1⟩

theorem pipelineStep2_shape (env : PipelineEnv) (r : Val) (q : String) (dbg : Val)
    (tr : List String) : RecordOk (pipelineStep2 env r q dbg tr).1 := by
  unfold pipelineStep2
  by_cases ht : env.timeoutAt 1 = true
  · rw [if_pos ht]
    exact ⟨(keysOf_get_timeout_result dbg).2, .inl (keysOf_get_timeout_result dbg).1⟩
  · rw [if_neg ht]
    exact pipelineStep3_shape env r _ _ _ _

/-- C1: `run_pipeline` is a total function of the embedding (the
orchestrator catches every stage exception, so nothing escapes to the
caller), it never returns a record containing `_debug`, and the key set of
the returned record is always exactly the FinalRecord keys or exactly the
parse-error-record keys — never a partial structure.  However the
parse-error-record keys are *not* the FinalRecord keys plus `error` as the
claim states: `score_breakdown` is missing from `_get_error_json`'s
record (witnessed at the concrete failing run reaching the parse-error
path). -/
theorem pipeline_record_shape :
    (∀ (env : PipelineEnv) (resumeText jobQuery : String),
        RecordOk (run_pipeline env resumeText jobQuery).1) ∧
    keysOf (run_pipeline baseEnv "resume" "query").1 = parseErrorKeys ∧
    parseErrorKeys ≠ finalKeys ++ ["error"] ∧
    "score_breakdown" ∈ finalKeys ∧ "score_breakdown" ∉ parseErrorKeys := by
  refine ⟨?_, by decide, by decide, by decide, by decide⟩
  intro env resumeText jobQuery
  unfold run_pipeline
  by_cases ht : env.timeoutAt 0 = true
  · rw [if_pos ht]
    exact ⟨(keysOf_get_timeout_result _).2, .inl (keysOf_get_timeout_result _).1⟩
  · rw [if_neg ht]
    dsimp only
    cases hp : (parse_resume env resumeText).1 with
    | error e => exact ⟨rfl, .inr rfl⟩
    | ok resumeJson =>
        rcases parseResumeRec_ok_cases env resumeText 2 0 resumeJson hp with ⟨m, hm⟩ | ⟨_, he⟩
        · subst hm
          exact ⟨rfl, .inr rfl⟩
        · dsimp only
          rw [if_neg (by simp [he])]
          exact pipelineStep2_shape env resumeJson jobQuery _ _

end SJAS
